import Mathlib

/-!
Verification development for the pyIOFlash repository.

This file gives a shallow embedding, in Lean 4, of the two core subsystems of
the repository:

* the sorted keyed collection `SortedDict` together with its transpose-view
  wrappers (`src/pyioflash/simulation/collections.py`,
  `src/pyioflash/simulation/utility.py`), and
* the block-adjacency construction and the guard-cell / boundary-cell fill
  functions (`src/pyioflash/simulation/geometry.py`,
  `src/pyioflash/simulation/support.py`),

and proves (or refutes) the stated correctness properties of those subsystems.

Modelling conventions:

* Python `float` keys and field values enter the model as rationals (`ℚ`);
  the collection code applies no arithmetic to keys, only comparisons and
  equality, for which `ℚ` is a faithful model of exactly-represented floats.
* Python exceptions are modelled with `Except` / `Option` error components;
  the payload of each error constructor records exactly the runtime data
  interpolated into the corresponding Python message string.
* `list.sort(key=...)` is Python's stable sort; `List.insertionSort` on the
  key ordering computes the stable sort of a list, and the output of a stable
  sort is unique, so it is extensionally the same function.
* numpy block arrays are modelled as total functions
  `block → z → y → x → ℚ`; slice assignments become pointwise function
  updates over the (box-shaped) index regions appearing in the source.
-/

namespace PyIOFlash

/-- A Python runtime value as far as the collection layer observes it:
floats, strings, and (nested) lists; `numpy.array` of a flat float list is
observationally a list here. -/
inductive PyVal : Type where
  | float (q : ℚ)
  | str (s : String)
  | list (xs : List PyVal)

/-- A keyed record stored in a `SortedDict`: the mandatory `key` attribute
plus further named attributes (`KeyedRecord` of the spec). -/
structure Rec : Type where
  key : ℚ
  attrs : List (String × PyVal)

/-- Python `getattr(obj, name)`: `key` is a real attribute of the record, the
rest are looked up in the record's named fields. -/
def Rec.getattr (r : Rec) (name : String) : Option PyVal :=
  if name = "key" then some (.float r.key) else r.attrs.lookup name

/-- The data each `ValueError`/`StopIteration` raised by `SortedDict` carries
(i.e. the runtime values interpolated into the Python message string). -/
inductive SDErr : Type where
  /-- `ValueError(f'Nonunique key provided; {value.key} @ index {self._keys[value.key]}')`
  raised by `append`: carries the key and the existing position. -/
  | nonuniqueAppend (key : ℚ) (index : ℕ)
  /-- `ValueError(f'Nonunique key, location mismatch; identical keys found in collection')`
  raised by `extend` and `__add__`: a constant message, no position data. -/
  | nonuniqueInCollection
  /-- `StopIteration` escaping from `_first_true` (`next(filter(...))`). -/
  | stopIteration
  deriving DecidableEq, Repr

/-- `key=lambda item: item.key` comparison used by `self._data.sort`. -/
def keyLE (a b : Rec) : Prop := a.key ≤ b.key

instance : DecidableRel keyLE := fun a b => inferInstanceAs (Decidable (a.key ≤ b.key))

instance : IsTotal Rec keyLE := ⟨fun a b => le_total a.key b.key⟩

instance : IsTrans Rec keyLE := ⟨fun _ _ _ h h' => le_trans h h'⟩

/-- `self._data.sort(key=lambda item: item.key)` — Python's stable sort,
computed here by the (stable) insertion sort on the key order. -/
def sortByKey (l : List Rec) : List Rec := List.insertionSort keyLE l

/-- The `SortedDict` state: the record list `_data` and the deferred-sort flag
`_is_valid`.  The `_keys` mapping is rebuilt from `_data` by
`__make_keys__` whenever the state is validated, so it is derived data here. -/
structure SortedDict : Type where
  data : List Rec
  is_valid : Bool

namespace SortedDict

/-- `SortedDict.__init__(iterable)`: stores the list unsorted with the
validity flag down. -/
def init (l : List Rec) : SortedDict := ⟨l, false⟩

/-- `SortedDict.from_sorted(iterable)`: stores the list as-is and marks it
valid without checking. -/
def from_sorted (l : List Rec) : SortedDict := ⟨l, true⟩

/-- `SortedDict.__make_valid__()`: sort by key and rebuild `_keys` unless the
state is already valid. -/
def make_valid (s : SortedDict) : SortedDict :=
  if s.is_valid then s else ⟨sortByKey s.data, true⟩

/-- The key list of the records in storage order (the keys of `_keys` when
the state is valid). -/
def keysList (l : List Rec) : List ℚ := l.map Rec.key

/-- `self._keys[k]` for a validated state: `__make_keys__` builds an
`OrderedDict` from `enumerate(self._data)`, so a duplicated key keeps the
position of its last occurrence. -/
def keyIndex (l : List Rec) (k : ℚ) : Option ℕ :=
  (l.enum.filterMap (fun p => if p.2.key = k then some p.1 else none)).getLast?

/-- `next(reversed(self._keys))` for a validated state: the greatest key. -/
def lastKey (l : List Rec) : Option ℚ := (keysList l).getLast?

/-- The externally observable contents: what iteration, `keys()`, `items()`
and indexing read after the pending `__make_valid__()`. -/
def readData (s : SortedDict) : List Rec := (make_valid s).data

/-- The observable key sequence of a read-through. -/
def readKeys (s : SortedDict) : List ℚ := keysList (readData s)

/-- `SortedDict.append(value)`.  Validates, raises on a duplicate key
(reporting the existing position), otherwise appends, dropping the validity
flag when the new key is below the current maximum.  The first component is
the state of `self` after the call (Python objects keep their state when an
exception propagates). -/
def append (s : SortedDict) (v : Rec) : SortedDict × Option SDErr :=
  let s := make_valid s
  match keyIndex s.data v.key with
  | some idx => (s, some (.nonuniqueAppend v.key idx))
  | none =>
      let invalid := !s.data.isEmpty && (lastKey s.data).any (fun m => decide (v.key < m))
      (⟨s.data ++ [v], if invalid then false else s.is_valid⟩, none)

/-- `_set_is_unique(self._keys, {item.key for item in iterable})` specialised
to the way `extend`/`__add__` call it: true iff no incoming key occurs among
the existing keys (the incoming keys are collapsed into a Python `set`, so
duplicates inside the batch are not detected). -/
def set_is_unique (source : List ℚ) (sequence : List ℚ) : Bool :=
  ¬ sequence.any (fun k => source.contains k)

/-- `SortedDict.extend(iterable)`.  Validates, raises (a constant-message
error) when some incoming key already exists, otherwise appends the whole
batch and drops the validity flag. -/
def extend (s : SortedDict) (batch : List Rec) : SortedDict × Option SDErr :=
  let s := make_valid s
  if set_is_unique (keysList s.data) (keysList batch) then
    (⟨s.data ++ batch, false⟩, none)
  else
    (s, some .nonuniqueInCollection)

/-- `SortedDict.__add__(other)` (`sa + sb`): validates, raises the same
constant-message error on a key collision, otherwise drops `self`'s validity
flag and returns the freshly constructed concatenation.  Result:
(post-state of `self`, error or the new collection). -/
def concat (s : SortedDict) (other : List Rec) :
    SortedDict × Except SDErr SortedDict :=
  let s := make_valid s
  if set_is_unique (keysList s.data) (keysList other) then
    (⟨s.data, false⟩, .ok (init (s.data ++ other)))
  else
    (s, .error .nonuniqueInCollection)

end SortedDict

/-- `_first_true(iterable, predictor)` = `next(filter(predictor, iterable))`:
the first element satisfying the predicate, `StopIteration` when none does. -/
def first_true {α : Type} (l : List α) (p : α → Bool) : Except SDErr α :=
  match l.find? p with
  | some a => .ok a
  | none => .error .stopIteration

namespace SortedDict

/-- `self._keys.items()` of a validated state: the (key, position) pairs in
ascending key order. -/
def keyItems (l : List Rec) : List (ℚ × ℕ) := l.enum.map (fun p => (p.2.key, p.1))

/-- `SortedDict.__getitem__` with a `float` key: resolves to the **first**
entry whose key is `≥` the query (not an exact-match lookup) and wraps the
record via `from_sorted`; `_first_true` raises `StopIteration` when every key
is below the query.  First component: post-state of `self`. -/
def getitem_float (s : SortedDict) (k : ℚ) :
    SortedDict × Except SDErr SortedDict :=
  let s := make_valid s
  (s, (first_true (keyItems s.data) (fun x => k ≤ x.1)).map
        (fun x => from_sorted ((s.data.drop x.2).take 1)))

/-- Resolved index list of a Python slice over an axis of length `L`:
`sliceIndices L start stop step` for `step ∈ {1, -1}` (the only strides the
embedded code uses), with `none` meaning an omitted bound. -/
def sliceIndices (L : ℤ) (start stop : Option ℤ) (step : ℤ) : List ℤ :=
  let norm : ℤ → ℤ := fun v => if v < 0 then v + L else v
  if step < 0 then
    let a := min (norm (start.getD (L - 1))) (L - 1)
    let b := max (norm (stop.getD (-L - 1))) (-1)
    (List.range (max 0 (a - b)).toNat).map (fun t : ℕ => a - (t : ℤ))
  else
    let a := max (norm (start.getD 0)) 0
    let b := min (norm (stop.getD L)) L
    (List.range (max 0 (b - a)).toNat).map (fun t : ℕ => a + (t : ℤ))

/-- Python list slicing `l[start : stop : step]` with already-resolved
non-negative `start`/`stop` positions (the collection code always slices
`self._data` with such values). -/
def pyListSlice {α : Type} (l : List α) (start stop : ℤ) (step : Option ℤ) :
    List α :=
  (sliceIndices l.length (some start) (some stop) (step.getD 1)).filterMap
    (fun i => l.get? i.toNat)

/-- `SortedDict.__getitem__` with a float-bounded slice: `start` resolves to
the position of the first key `≥ key.start` (`0` when omitted), `stop` to one
past the position of the last key `≤ key.stop` (found scanning
`reversed(self._keys.items())`; the series length when omitted), then the
record list is sliced and wrapped via `from_sorted`. -/
def getitem_fslice (s : SortedDict) (lo hi : Option ℚ) (step : Option ℤ) :
    SortedDict × Except SDErr SortedDict :=
  let s := make_valid s
  let startE : Except SDErr ℕ :=
    match lo with
    | none => .ok 0
    | some lo => (first_true (keyItems s.data) (fun x => lo ≤ x.1)).map (·.2)
  let stopE : Except SDErr ℕ :=
    match hi with
    | none => .ok s.data.length
    | some hi =>
        (first_true (keyItems s.data).reverse (fun x => x.1 ≤ hi)).map (·.2 + 1)
  (s, do
    let start ← startE
    let stop ← stopE
    pure (from_sorted (pyListSlice s.data start stop step)))

end SortedDict

/-- An `append` or `extend` call, for reasoning about call sequences. -/
inductive SDOp : Type where
  | app (r : Rec)
  | ext (batch : List Rec)

/-- Run a sequence of `append`/`extend` calls, stopping at the first raised
error (an uncaught exception aborts the sequence). -/
def runOps (s : SortedDict) : List SDOp → SortedDict × Option SDErr
  | [] => (s, none)
  | op :: ops =>
      let step := match op with
        | .app r => s.append r
        | .ext b => s.extend b
      match step with
      | (s', none) => runOps s' ops
      | (s', some e) => (s', some e)

/-- `_filter_transpose(source, names)`: for each name, the list of that
attribute across the source records; the surrounding `try` turns a missing
attribute into an error (the `AttributeError` fallback path, which would
subscript the records, also fails for these records). -/
def filter_transpose (source : List Rec) (names : List String) :
    Except Unit (List (List PyVal)) :=
  names.mapM (fun name => source.mapM (fun r => match r.getattr name with
    | some v => Except.ok v
    | none => Except.error ()))

/-- `BaseTransposable.__getitem__` with a single string, composed over a
`TransposableAsArray` collection: the inherited `SortedDict.__getitem__`
validates `self` and raises `TypeError` (caught), then `_filter_transpose`
runs over the now-sorted records and each column is wrapped by `numpy.array`
(observationally `PyVal.list`), giving the `FilterableList` contents.  First
component: post-state of `self`. -/
def view_getitem_str (s : SortedDict) (name : String) :
    SortedDict × Except Unit (List PyVal) :=
  let s := s.make_valid
  (s, (filter_transpose s.data [name]).map (fun cols => cols.map PyVal.list))

/-- Indexing a `PyVal` with an integer (`item[i]`): only lists support it. -/
def pyIndex (v : PyVal) (i : ℕ) : Except Unit PyVal :=
  match v with
  | .list xs => match xs.get? i with
    | some x => .ok x
    | none => .error ()
  | _ => .error ()

/-- `Filterable.__getitem__` with an integer `i`: `[item[i] for item in self]`
— a plain Python list collecting the `i`-th entry of every element. -/
def filterable_getitem_int (xs : List PyVal) (i : ℕ) : Except Unit PyVal :=
  (xs.mapM (fun item => pyIndex item i)).map PyVal.list

namespace SortedDict

/-- The internal invariant maintained by the public mutators: keys are
pairwise distinct and a raised validity flag means the data really is
sorted. -/
def Inv (s : SortedDict) : Prop :=
  (keysList s.data).Nodup ∧ (s.is_valid = true → List.Sorted keyLE s.data)

/-- Hypothesis side-condition for the amended sort invariant: every batch
passed to an `extend` in the call sequence has pairwise-distinct keys. -/
def BatchesNodup (ops : List SDOp) : Prop :=
  ∀ b, SDOp.ext b ∈ ops → (keysList b).Nodup

/-- Membership of a key in the closed interval `[lo, hi]` with optional
(omitted) bounds. -/
def inClosed (lo hi : Option ℚ) (k : ℚ) : Bool :=
  (match lo with
   | none => true
   | some q => decide (q ≤ k)) &&
  (match hi with
   | none => true
   | some q => decide (k ≤ q))

end SortedDict

namespace Geometry

/-! ### Block geometry: adjacency graph and halo/boundary fills
(`src/pyioflash/simulation/geometry.py`, `src/pyioflash/simulation/support.py`) -/
/-- A block's face dictionary (`blk_neighbors[b]`): face name → neighbor id. -/
abbrev FaceMap := List (String × ℤ)

/-- `faces[name]` as an optional lookup (`name in faces` ↔ `isSome`). -/
def lookupFace (fm : FaceMap) (name : String) : Option ℤ := fm.lookup name

/-- `names = ["left", "right", "front", "back", "up", "down"]` from
`GeometryData._get_neighbors`. -/
def names : List String := ["left", "right", "front", "back", "up", "down"]

/-- `GeometryData._get_neighbors(tree, dim)`: for each block, the dictionary
`{names[face]: block for face, block in enumerate(struct[:2*dim]) if block >= 0}`. -/
def get_neighbors (tree : List (List ℤ)) (dim : ℕ) : List FaceMap :=
  tree.map (fun struct =>
    (struct.take (2 * dim)).enum.filterMap
      (fun p => if p.2 ≥ 0 then some (names.getD p.1 "", p.2) else none))

/-- The fixed geometry parameters read off a `GeometryData` instance:
`Z/Y/X` are the guard-extended per-block shapes `blk_size_* + blk_guards`,
`g = int(blk_guards / 2)`, `dim = grd_dim`. -/
structure Geom : Type where
  Z : ℤ
  Y : ℤ
  X : ℤ
  g : ℤ
  dim : ℕ

/-- A dense per-block field array `data[block, z, y, x]`, modelled as a total
function. -/
abbrev D : Type := ℕ → ℤ → ℤ → ℤ → ℚ

/-- `g ≤ x < size - g`: the interior range `g:-g` of an axis. -/
def intB (size g x : ℤ) : Bool := decide (g ≤ x) && decide (x < size - g)

/-- `0 ≤ x < g`: the low guard range `:g` of an axis. -/
def loB (g x : ℤ) : Bool := decide (0 ≤ x) && decide (x < g)

/-- `size - g ≤ x < size`: the high guard range `-g:` of an axis. -/
def hiB (size g x : ℤ) : Bool := decide (size - g ≤ x) && decide (x < size)

/-- `0 ≤ x < g - 1`: the shrunk low range `:g-1` used by the `fcx2`-style
neumann low-face branches. -/
def loB1 (g x : ℤ) : Bool := decide (0 ≤ x) && decide (x < g - 1)

/-- Per-axis destination range class of a guard-copy slice. -/
inductive Rng : Type where
  | int
  | lo
  | hi
  deriving DecidableEq

/-- Destination membership of the three range classes. -/
def Rng.mem (size g : ℤ) : Rng → ℤ → Bool
  | .int, x => intB size g x
  | .lo, x => loB g x
  | .hi, x => hiB size g x

/-- Source-index shift of a guard copy along one axis: destination `-g:`
reads `g:2*g` (shift `-(size-2g)`), destination `:g` reads `-2*g:-g`
(shift `size-2g`), an interior destination range reads itself. -/
def Rng.shift (size g : ℤ) : Rng → ℤ
  | .int => 0
  | .lo => size - 2 * g
  | .hi => -(size - 2 * g)

/-- One slice assignment
`data[blk, <rz>, <ry>, <rx>] = data[src, <shifted ranges>]` of
`_guard_cells_from_data`, as a pointwise update. -/
def copy (geo : Geom) (blk src : ℕ) (rz ry rx : Rng) (d : D) : D :=
  fun b k j i =>
    if b = blk ∧ (rz.mem geo.Z geo.g k && ry.mem geo.Y geo.g j
        && rx.mem geo.X geo.g i) = true
    then d src (k + rz.shift geo.Z geo.g) (j + ry.shift geo.Y geo.g)
      (i + rx.shift geo.X geo.g)
    else d b k j i

/-- Where a copy's source block id comes from: a face of the current block,
or a face of a face-neighbor (`struct[faces[f1]][f2]`). -/
inductive SrcRef : Type where
  | face (f : String)
  | edge (f1 f2 : String)

/-- One `if ... : data[block, ...] = data[..., ...]` statement of
`_guard_cells_from_data`: the faces it requires in the block's dictionary,
whether it sits under `if geometry.grd_dim == 3`, its source reference and
its destination ranges. -/
structure Template : Type where
  needs : List String
  dim3 : Bool
  src : SrcRef
  rz : Rng
  ry : Rng
  rx : Rng

/-- The statements of `_guard_cells_from_data`, in source order: the six
face copies, the four xy edge copies, then (3-D only) the eight corner
copies (whose sources are the xy-diagonal neighbors). -/
def guardTemplates : List Template := [
  ⟨["right"], false, .face "right", .int, .int, .hi⟩,
  ⟨["left"], false, .face "left", .int, .int, .lo⟩,
  ⟨["front"], false, .face "front", .int, .hi, .int⟩,
  ⟨["back"], false, .face "back", .int, .lo, .int⟩,
  ⟨["up"], false, .face "up", .hi, .int, .int⟩,
  ⟨["down"], false, .face "down", .lo, .int, .int⟩,
  ⟨["right", "front"], false, .edge "right" "front", .int, .hi, .hi⟩,
  ⟨["left", "front"], false, .edge "left" "front", .int, .hi, .lo⟩,
  ⟨["right", "back"], false, .edge "right" "back", .int, .lo, .hi⟩,
  ⟨["left", "back"], false, .edge "left" "back", .int, .lo, .lo⟩,
  ⟨["right", "front", "up"], true, .edge "right" "front", .hi, .hi, .hi⟩,
  ⟨["left", "front", "up"], true, .edge "left" "front", .hi, .hi, .lo⟩,
  ⟨["right", "back", "up"], true, .edge "right" "back", .hi, .lo, .hi⟩,
  ⟨["left", "back", "up"], true, .edge "left" "back", .hi, .lo, .lo⟩,
  ⟨["right", "front", "down"], true, .edge "right" "front", .lo, .hi, .hi⟩,
  ⟨["left", "front", "down"], true, .edge "left" "front", .lo, .hi, .lo⟩,
  ⟨["right", "back", "down"], true, .edge "right" "back", .lo, .lo, .hi⟩,
  ⟨["left", "back", "down"], true, .edge "left" "back", .lo, .lo, .lo⟩]

/-- Resolve a source block id.  A face reference reads the block's own
dictionary; an edge reference reads `struct[faces[f1]][f2]`, where a missing
entry raises `KeyError` and an out-of-range id raises `IndexError`.
(`_get_neighbors` only produces non-negative ids, so ids that Python's
negative indexing would wrap are treated as errors here.) -/
def resolveSrc (struct : List FaceMap) (fm : FaceMap) : SrcRef → Except Unit ℕ
  | .face f =>
      match lookupFace fm f with
      | some n => if 0 ≤ n then .ok n.toNat else .error ()
      | none => .error ()
  | .edge f1 f2 =>
      match lookupFace fm f1 with
      | some n =>
          if 0 ≤ n then
            match struct.get? n.toNat with
            | some fm2 =>
                match lookupFace fm2 f2 with
                | some m => if 0 ≤ m then .ok m.toNat else .error ()
                | none => .error ()
            | none => .error ()
          else .error ()
      | none => .error ()

/-- Whether a statement's guard (`"f" in faces`, possibly under
`grd_dim == 3`) is satisfied on the current block. -/
def fires (geo : Geom) (fm : FaceMap) (t : Template) : Bool :=
  (!t.dim3 || decide (geo.dim = 3))
    && t.needs.all (fun f => (lookupFace fm f).isSome)

/-- Execute one statement of `_guard_cells_from_data`. -/
def applyTemplate (geo : Geom) (struct : List FaceMap) (blk : ℕ) (fm : FaceMap)
    (d : D) (t : Template) : Except Unit D :=
  if fires geo fm t then do
    let src ← resolveSrc struct fm t.src
    pure (copy geo blk src t.rz t.ry t.rx d)
  else pure d

/-- The body of `_guard_cells_from_data`'s loop for one `(block, faces)`
pair. -/
def fillBlockGuards (geo : Geom) (struct : List FaceMap) (blk : ℕ)
    (fm : FaceMap) (d : D) : Except Unit D :=
  guardTemplates.foldlM (applyTemplate geo struct blk fm) d

/-- `_guard_cells_from_data(data, geometry)`: the sequential in-place loop
over `enumerate(struct)`. -/
def guard_cells_from_data (geo : Geom) (struct : List FaceMap) (d : D) :
    Except Unit D :=
  struct.enum.foldlM (fun d p => fillBlockGuards geo struct p.1 p.2 d) d

/-- One masked pointwise assignment into block `blk` (the cells satisfying
`p` take the value computed from the pre-assignment array). -/
def writeWhere (blk : ℕ) (p : ℤ → ℤ → ℤ → Bool)
    (v : D → ℤ → ℤ → ℤ → ℚ) (d : D) : D :=
  fun b k j i => if b = blk ∧ p k j i = true then v d k j i else d b k j i

/-- The `"right" not in faces` section of `_bound_cells_from_data_velc`. -/
def velcWriteRight (geo : Geom) (bc : String → String) (field : String)
    (blk : ℕ) (fm : FaceMap) (d : D) : D :=
  if (lookupFace fm "right").isSome then d
  else if bc "right" ∈ ["noslip_ins", "NOSLIP_INS"] then
    writeWhere blk (fun k j i => intB geo.Z geo.g k && intB geo.Y geo.g j && hiB geo.X geo.g i)
      (fun _ _ _ _ => 0) d
  else if bc "right" ∈ ["slip_ins", "SLIP_INS"] then
    if field = "fcx2" then
      writeWhere blk (fun k j i => intB geo.Z geo.g k && intB geo.Y geo.g j && hiB geo.X geo.g i)
        (fun _ _ _ _ => 0) d
    else
      writeWhere blk (fun k j i => intB geo.Z geo.g k && intB geo.Y geo.g j && hiB geo.X geo.g i)
        (fun d0 k j i => d0 blk k j (2 * geo.X - 2 * geo.g - 1 - i)) d
  else if bc "right" ∈ ["neumann", "NEUMANN", "neumann_ins", "NEUMANN_INS"] then
    if field = "fcx2" then
      writeWhere blk (fun k j i => intB geo.Z geo.g k && intB geo.Y geo.g j && hiB geo.X geo.g i)
        (fun d0 k j i => d0 blk k j (2 * geo.X - 2 * geo.g - 2 - i)) d
    else
      writeWhere blk (fun k j i => intB geo.Z geo.g k && intB geo.Y geo.g j && hiB geo.X geo.g i)
        (fun d0 k j i => d0 blk k j (2 * geo.X - 2 * geo.g - 1 - i)) d
  else d

/-- The `"left" not in faces` section of `_bound_cells_from_data_velc`. -/
def velcWriteLeft (geo : Geom) (bc : String → String) (field : String)
    (blk : ℕ) (fm : FaceMap) (d : D) : D :=
  if (lookupFace fm "left").isSome then d
  else if bc "left" ∈ ["noslip_ins", "NOSLIP_INS"] then
    writeWhere blk (fun k j i => intB geo.Z geo.g k && intB geo.Y geo.g j && loB geo.g i)
      (fun _ _ _ _ => 0) d
  else if bc "left" ∈ ["slip_ins", "SLIP_INS"] then
    if field = "fcx2" then
      writeWhere blk (fun k j i => intB geo.Z geo.g k && intB geo.Y geo.g j && loB geo.g i)
        (fun _ _ _ _ => 0) d
    else
      writeWhere blk (fun k j i => intB geo.Z geo.g k && intB geo.Y geo.g j && loB geo.g i)
        (fun d0 k j i => d0 blk k j (2 * geo.g - 1 - i)) d
  else if bc "left" ∈ ["neumann", "NEUMANN", "neumann_ins", "NEUMANN_INS"] then
    if field = "fcx2" then
      writeWhere blk (fun k j i => intB geo.Z geo.g k && intB geo.Y geo.g j && loB1 geo.g i)
        (fun d0 k j i => d0 blk k j (2 * geo.g - 2 - i)) d
    else
      writeWhere blk (fun k j i => intB geo.Z geo.g k && intB geo.Y geo.g j && loB geo.g i)
        (fun d0 k j i => d0 blk k j (2 * geo.g - 1 - i)) d
  else d

/-- The `"front" not in faces` section of `_bound_cells_from_data_velc`. -/
def velcWriteFront (geo : Geom) (bc : String → String) (field : String)
    (blk : ℕ) (fm : FaceMap) (d : D) : D :=
  if (lookupFace fm "front").isSome then d
  else if bc "front" ∈ ["noslip_ins", "NOSLIP_INS"] then
    writeWhere blk (fun k j i => intB geo.Z geo.g k && hiB geo.Y geo.g j && intB geo.X geo.g i)
      (fun _ _ _ _ => 0) d
  else if bc "front" ∈ ["slip_ins", "SLIP_INS"] then
    if field = "fcy2" then
      writeWhere blk (fun k j i => intB geo.Z geo.g k && hiB geo.Y geo.g j && intB geo.X geo.g i)
        (fun _ _ _ _ => 0) d
    else
      writeWhere blk (fun k j i => intB geo.Z geo.g k && hiB geo.Y geo.g j && intB geo.X geo.g i)
        (fun d0 k j i => d0 blk k (2 * geo.Y - 2 * geo.g - 1 - j) i) d
  else if bc "front" ∈ ["neumann", "NEUMANN", "neumann_ins", "NEUMANN_INS"] then
    if field = "fcy2" then
      writeWhere blk (fun k j i => intB geo.Z geo.g k && hiB geo.Y geo.g j && intB geo.X geo.g i)
        (fun d0 k j i => d0 blk k (2 * geo.Y - 2 * geo.g - 2 - j) i) d
    else
      writeWhere blk (fun k j i => intB geo.Z geo.g k && hiB geo.Y geo.g j && intB geo.X geo.g i)
        (fun d0 k j i => d0 blk k (2 * geo.Y - 2 * geo.g - 1 - j) i) d
  else d

/-- The `"back" not in faces` section of `_bound_cells_from_data_velc`. -/
def velcWriteBack (geo : Geom) (bc : String → String) (field : String)
    (blk : ℕ) (fm : FaceMap) (d : D) : D :=
  if (lookupFace fm "back").isSome then d
  else if bc "back" ∈ ["noslip_ins", "NOSLIP_INS"] then
    writeWhere blk (fun k j i => intB geo.Z geo.g k && loB geo.g j && intB geo.X geo.g i)
      (fun _ _ _ _ => 0) d
  else if bc "back" ∈ ["slip_ins", "SLIP_INS"] then
    if field = "fcy2" then
      writeWhere blk (fun k j i => intB geo.Z geo.g k && loB geo.g j && intB geo.X geo.g i)
        (fun _ _ _ _ => 0) d
    else
      writeWhere blk (fun k j i => intB geo.Z geo.g k && loB geo.g j && intB geo.X geo.g i)
        (fun d0 k j i => d0 blk k (2 * geo.g - 1 - j) i) d
  else if bc "back" ∈ ["neumann", "NEUMANN", "neumann_ins", "NEUMANN_INS"] then
    if field = "fcy2" then
      writeWhere blk (fun k j i => intB geo.Z geo.g k && loB1 geo.g j && intB geo.X geo.g i)
        (fun d0 k j i => d0 blk k (2 * geo.g - 2 - j) i) d
    else
      writeWhere blk (fun k j i => intB geo.Z geo.g k && loB geo.g j && intB geo.X geo.g i)
        (fun d0 k j i => d0 blk k (2 * geo.g - 1 - j) i) d
  else d

/-- The `"up" not in faces` section of `_bound_cells_from_data_velc`
(under `grd_dim == 3`). -/
def velcWriteUp (geo : Geom) (bc : String → String) (field : String)
    (blk : ℕ) (fm : FaceMap) (d : D) : D :=
  if (lookupFace fm "up").isSome then d
  else if bc "up" ∈ ["noslip_ins", "NOSLIP_INS"] then
    writeWhere blk (fun k j i => hiB geo.Z geo.g k && intB geo.Y geo.g j && intB geo.X geo.g i)
      (fun _ _ _ _ => 0) d
  else if bc "up" ∈ ["slip_ins", "SLIP_INS"] then
    if field = "fcz2" then
      writeWhere blk (fun k j i => hiB geo.Z geo.g k && intB geo.Y geo.g j && intB geo.X geo.g i)
        (fun _ _ _ _ => 0) d
    else
      writeWhere blk (fun k j i => hiB geo.Z geo.g k && intB geo.Y geo.g j && intB geo.X geo.g i)
        (fun d0 k j i => d0 blk (2 * geo.Z - 2 * geo.g - 1 - k) j i) d
  else if bc "up" ∈ ["neumann", "NEUMANN", "neumann_ins", "NEUMANN_INS"] then
    if field = "fcz2" then
      writeWhere blk (fun k j i => hiB geo.Z geo.g k && intB geo.Y geo.g j && intB geo.X geo.g i)
        (fun d0 k j i => d0 blk (2 * geo.Z - 2 * geo.g - 2 - k) j i) d
    else
      writeWhere blk (fun k j i => hiB geo.Z geo.g k && intB geo.Y geo.g j && intB geo.X geo.g i)
        (fun d0 k j i => d0 blk (2 * geo.Z - 2 * geo.g - 1 - k) j i) d
  else d

/-- The `"down" not in faces` section of `_bound_cells_from_data_velc`
(under `grd_dim == 3`). -/
def velcWriteDown (geo : Geom) (bc : String → String) (field : String)
    (blk : ℕ) (fm : FaceMap) (d : D) : D :=
  if (lookupFace fm "down").isSome then d
  else if bc "down" ∈ ["noslip_ins", "NOSLIP_INS"] then
    writeWhere blk (fun k j i => loB geo.g k && intB geo.Y geo.g j && intB geo.X geo.g i)
      (fun _ _ _ _ => 0) d
  else if bc "down" ∈ ["slip_ins", "SLIP_INS"] then
    if field = "fcz2" then
      writeWhere blk (fun k j i => loB geo.g k && intB geo.Y geo.g j && intB geo.X geo.g i)
        (fun _ _ _ _ => 0) d
    else
      writeWhere blk (fun k j i => loB geo.g k && intB geo.Y geo.g j && intB geo.X geo.g i)
        (fun d0 k j i => d0 blk (2 * geo.g - 1 - k) j i) d
  else if bc "down" ∈ ["neumann", "NEUMANN", "neumann_ins", "NEUMANN_INS"] then
    if field = "fcz2" then
      writeWhere blk (fun k j i => loB1 geo.g k && intB geo.Y geo.g j && intB geo.X geo.g i)
        (fun d0 k j i => d0 blk (2 * geo.g - 2 - k) j i) d
    else
      writeWhere blk (fun k j i => loB geo.g k && intB geo.Y geo.g j && intB geo.X geo.g i)
        (fun d0 k j i => d0 blk (2 * geo.g - 1 - k) j i) d
  else d

/-- `_bound_cells_from_data_velc`, body of the loop for one block: the face
sections run in source order, the z-direction only under `grd_dim == 3`. -/
def velcBlock (geo : Geom) (bc : String → String) (field : String)
    (blk : ℕ) (fm : FaceMap) (d : D) : D :=
  let d := velcWriteRight geo bc field blk fm d
  let d := velcWriteLeft geo bc field blk fm d
  let d := velcWriteFront geo bc field blk fm d
  let d := velcWriteBack geo bc field blk fm d
  if geo.dim = 3 then
    let d := velcWriteUp geo bc field blk fm d
    velcWriteDown geo bc field blk fm d
  else d

/-- `_bound_cells_from_data_velc(data, geometry, field)`. -/
def bound_cells_from_data_velc (geo : Geom) (bc : String → String)
    (field : String) (struct : List FaceMap) (d : D) : D :=
  struct.enum.foldl (fun d p => velcBlock geo bc field p.1 p.2 d) d

/-- Pair every destination index of a numpy last-axis slice assignment with
its source index, following broadcasting: equal lengths pair elementwise, a
single source plane broadcasts to every destination, anything else raises
`ValueError: could not broadcast`. -/
def broadcastPair (destIdx srcIdx : List ℤ) : Except Unit (List (ℤ × ℤ)) :=
  if srcIdx.length = destIdx.length then .ok (destIdx.zip srcIdx)
  else
    match srcIdx with
    | [sidx] => .ok (destIdx.map (fun i => (i, sidx)))
    | _ => .error ()

/-- `_bound_cells_from_data_temp`, body of the loop for one block.  Only the
right face is handled; `bc/bv face` are `grd_bndcnds["temp"][face]` and
`grd_bndvals["temp"][face]`, `x` is `geometry._grd_mesh_x`.  The mirror
slice of the source is `-g-1 : -2*g+1 : -1` (as written in the code). -/
def tempBlock (geo : Geom) (bc : String → String) (bv : String → ℚ) (x : Geometry.D)
    (blk : ℕ) (fm : FaceMap) (d : Geometry.D) : Except Unit Geometry.D :=
  let g := geo.g
  if (lookupFace fm "right").isSome then .ok d
  else if bc "right" ∈ ["dirichlet_ht", "DIRICHLET_HT"] then do
    let pairs ← broadcastPair
      (SortedDict.sliceIndices geo.X (some (-g)) none 1)
      (SortedDict.sliceIndices geo.X (some (-g - 1)) (some (-2 * g + 1)) (-1))
    pure (fun b k j i =>
      if b = blk ∧ (intB geo.Z g k && intB geo.Y g j) = true ∧
          (pairs.lookup i).isSome = true
      then 2 * bv "right" - d blk k j ((pairs.lookup i).getD 0)
      else d b k j i)
  else if bc "right" ∈ ["neumann_ht", "neumann_ht"] then do
    let pairs ← broadcastPair
      (SortedDict.sliceIndices geo.X (some (-g)) none 1)
      (SortedDict.sliceIndices geo.X (some (-g - 1)) (some (-2 * g + 1)) (-1))
    pure (fun b k j i =>
      if b = blk ∧ (intB geo.Z g k && intB geo.Y g j) = true ∧
          (pairs.lookup i).isSome = true
      then (x blk k j i - x blk k j ((pairs.lookup i).getD 0)) * bv "right"
        + d blk k j ((pairs.lookup i).getD 0)
      else d b k j i)
  else .ok d

/-- `_bound_cells_from_data_temp(data, geometry)`. -/
def bound_cells_from_data_temp (geo : Geom) (bc : String → String)
    (bv : String → ℚ) (x : Geometry.D) (struct : List FaceMap) (d : Geometry.D) :
    Except Unit Geometry.D :=
  struct.enum.foldlM (fun d p => tempBlock geo bc bv x p.1 p.2 d) d

/-- `_bound_cells_from_data_grid`, body of the loop for one block: linear
extrapolation of boundary guard planes from the two nearest interior planes,
over the full tangential extent. -/
def gridBlock (geo : Geom) (blk : ℕ) (fm : FaceMap) (d : Geometry.D) : Geometry.D :=
  let g := geo.g
  let d :=
    if (lookupFace fm "right").isSome then d
    else (List.range g.toNat).foldl (fun d n =>
      let idx : ℤ := n
      writeWhere blk (fun _ _ i => decide (i = geo.X - idx - 1))
        (fun d0 k j _ => d0 blk k j (geo.X - g - 1)
          + (d0 blk k j (geo.X - g - 1) - d0 blk k j (geo.X - g - 2)) * (g - idx)) d) d
  let d :=
    if (lookupFace fm "left").isSome then d
    else (List.range g.toNat).foldl (fun d n =>
      let idx : ℤ := n
      writeWhere blk (fun _ _ i => decide (i = idx))
        (fun d0 k j _ => d0 blk k j g
          - (d0 blk k j (g + 1) - d0 blk k j g) * (g - idx)) d) d
  let d :=
    if (lookupFace fm "front").isSome then d
    else (List.range g.toNat).foldl (fun d n =>
      let idx : ℤ := n
      writeWhere blk (fun _ j _ => decide (j = geo.Y - idx - 1))
        (fun d0 k _ i => d0 blk k (geo.Y - g - 1) i
          + (d0 blk k (geo.Y - g - 1) i - d0 blk k (geo.Y - g - 2) i) * (g - idx)) d) d
  let d :=
    if (lookupFace fm "back").isSome then d
    else (List.range g.toNat).foldl (fun d n =>
      let idx : ℤ := n
      writeWhere blk (fun _ j _ => decide (j = idx))
        (fun d0 k _ i => d0 blk k g i
          - (d0 blk k (g + 1) i - d0 blk k g i) * (g - idx)) d) d
  if geo.dim = 3 then
    let d :=
      if (lookupFace fm "up").isSome then d
      else (List.range g.toNat).foldl (fun d n =>
        let idx : ℤ := n
        writeWhere blk (fun k _ _ => decide (k = geo.Z - idx - 1))
          (fun d0 _ j i => d0 blk (geo.Z - g - 1) j i
            + (d0 blk (geo.Z - g - 1) j i - d0 blk (geo.Z - g - 2) j i) * (g - idx)) d) d
    if (lookupFace fm "down").isSome then d
    else (List.range g.toNat).foldl (fun d n =>
      let idx : ℤ := n
      writeWhere blk (fun k _ _ => decide (k = idx))
        (fun d0 _ j i => d0 blk g j i
          - (d0 blk (g + 1) j i - d0 blk g j i) * (g - idx)) d) d
  else d

/-- `_bound_cells_from_data_grid(data, geometry, field)`. -/
def bound_cells_from_data_grid (geo : Geom) (struct : List FaceMap)
    (d : Geometry.D) : Geometry.D :=
  struct.enum.foldl (fun d p => gridBlock geo p.1 p.2 d) d

/-- `_bound_cells_from_data_metric`, body of the loop for one block: plain
repetition of the nearest interior plane (the back branch of the source
contains a duplicated nested loop over `i`, kept here as a nested fold). -/
def metricBlock (geo : Geom) (blk : ℕ) (fm : FaceMap) (d : Geometry.D) : Geometry.D :=
  let g := geo.g
  let d :=
    if (lookupFace fm "right").isSome then d
    else (List.range g.toNat).foldl (fun d n =>
      let idx : ℤ := n
      writeWhere blk (fun _ _ i => decide (i = geo.X - idx - 1))
        (fun d0 k j _ => d0 blk k j (geo.X - g - 1)) d) d
  let d :=
    if (lookupFace fm "left").isSome then d
    else (List.range g.toNat).foldl (fun d n =>
      let idx : ℤ := n
      writeWhere blk (fun _ _ i => decide (i = idx))
        (fun d0 k j _ => d0 blk k j g) d) d
  let d :=
    if (lookupFace fm "front").isSome then d
    else (List.range g.toNat).foldl (fun d n =>
      let idx : ℤ := n
      writeWhere blk (fun _ j _ => decide (j = geo.Y - idx - 1))
        (fun d0 k _ i => d0 blk k (geo.Y - g - 1) i) d) d
  let d :=
    if (lookupFace fm "back").isSome then d
    else (List.range g.toNat).foldl (fun d _ =>
      (List.range g.toNat).foldl (fun d n =>
        let idx : ℤ := n
        writeWhere blk (fun _ j _ => decide (j = idx))
          (fun d0 k _ i => d0 blk k g i) d) d) d
  if geo.dim = 3 then
    let d :=
      if (lookupFace fm "up").isSome then d
      else (List.range g.toNat).foldl (fun d n =>
        let idx : ℤ := n
        writeWhere blk (fun k _ _ => decide (k = geo.Z - idx - 1))
          (fun d0 _ j i => d0 blk (geo.Z - g - 1) j i) d) d
    if (lookupFace fm "down").isSome then d
    else (List.range g.toNat).foldl (fun d n =>
      let idx : ℤ := n
      writeWhere blk (fun k _ _ => decide (k = idx))
        (fun d0 _ j i => d0 blk g j i) d) d
  else d

/-- `_bound_cells_from_data_metric(data, geometry, field)`. -/
def bound_cells_from_data_metric (geo : Geom) (struct : List FaceMap)
    (d : Geometry.D) : Geometry.D :=
  struct.enum.foldl (fun d p => metricBlock geo p.1 p.2 d) d

/-- `_bound_cells_from_data(data, geometry, field)`: the dispatcher.  An
unrecognized field name reaches the final `else: pass`. -/
def bound_cells_from_data (geo : Geom) (bcVelc bcTemp : String → String)
    (bvTemp : String → ℚ) (xmesh : Geometry.D) (struct : List FaceMap)
    (field : String) (d : Geometry.D) : Except Unit Geometry.D :=
  if field ∈ ["fcx2", "fcy2", "fcz2"] then
    .ok (bound_cells_from_data_velc geo bcVelc field struct d)
  else if field = "temp" then
    bound_cells_from_data_temp geo bcTemp bvTemp xmesh struct d
  else if field ∈ ["xxxl", "xxxc", "xxxr", "yyyl", "yyyc", "yyyr",
      "zzzl", "zzzc", "zzzr"] then
    .ok (bound_cells_from_data_grid geo struct d)
  else if field ∈ ["ddxl", "ddxc", "ddxr", "ddyl", "ddyc", "ddyr",
      "ddzl", "ddzc", "ddzr"] then
    .ok (bound_cells_from_data_metric geo struct d)
  else .ok d

/-- Destination ranges `(z, y, x)` of the guard slab each of the six faces
fills in `_bound_cells_from_data_velc`: tangential axes interior (`g:-g`),
the normal axis its guard range (`:g` or `-g:`). -/
def faceRngs (face : String) : Option (Rng × Rng × Rng) :=
  if face = "left" then some (.int, .int, .lo)
  else if face = "right" then some (.int, .int, .hi)
  else if face = "front" then some (.int, .hi, .int)
  else if face = "back" then some (.int, .lo, .int)
  else if face = "up" then some (.hi, .int, .int)
  else if face = "down" then some (.lo, .int, .int)
  else none

/-- A block layout with no physical boundaries: every face of every block
has a same-level neighbor, recorded with a valid block id. -/
def fullAdj (struct : List FaceMap) : Prop :=
  ∀ fm ∈ struct, ∀ f ∈ names,
    ∃ n : ℤ, lookupFace fm f = some n ∧ 0 ≤ n ∧ n.toNat < struct.length

/-- All boundary-condition strings recognized by some branch of
`_bound_cells_from_data_velc`. -/
def recognizedVelcConds : List String :=
  ["noslip_ins", "NOSLIP_INS", "slip_ins", "SLIP_INS",
   "neumann", "NEUMANN", "neumann_ins", "NEUMANN_INS"]

/-- All field names recognized by the `_bound_cells_from_data` dispatcher. -/
def recognizedFields : List String :=
  ["fcx2", "fcy2", "fcz2", "temp",
   "xxxl", "xxxc", "xxxr", "yyyl", "yyyc", "yyyr", "zzzl", "zzzc", "zzzr",
   "ddxl", "ddxc", "ddxr", "ddyl", "ddyc", "ddyr", "ddzl", "ddzc", "ddzr"]

end Geometry

/-- The array produced by dispatching `"fcx2"` with boundary conditions
`right = noslip_ins` and every other face unrecognized, from an all-ones
array on a single boundary-only block. -/
def velcCEout : Geometry.D :=
  (Geometry.bound_cells_from_data ⟨4, 4, 4, 1, 2⟩
    (fun f => if f = "right" then "noslip_ins" else "FOO") (fun _ => "FOO")
    (fun _ => 0) (fun _ _ _ _ => 0) [[]] "fcx2"
    (fun _ _ _ _ => 1)).toOption.getD (fun _ _ _ _ => 0)

open Geometry in
/-- Concrete output of a completing temperature fill (`g = 3`, one block,
Dirichlet right boundary), for the frame witness. -/
def tempOutWitness : Geometry.D :=
  (bound_cells_from_data_temp ⟨8, 8, 8, 3, 2⟩ (fun _ => "dirichlet_ht")
    (fun _ => 10) (fun _ _ _ _ => 0) [[]] (fun _ _ _ _ => 1)).toOption.getD
    (fun _ _ _ _ => 0)

/-- A 2x2x1 block layout, periodic in every direction (each block is its
own z-neighbor): every block has all six faces, no physical boundaries. -/
def torusStruct : List Geometry.FaceMap :=
  [[("left", 1), ("right", 1), ("front", 2), ("back", 2), ("up", 0), ("down", 0)],
   [("left", 0), ("right", 0), ("front", 3), ("back", 3), ("up", 1), ("down", 1)],
   [("left", 3), ("right", 3), ("front", 0), ("back", 0), ("up", 2), ("down", 2)],
   [("left", 2), ("right", 2), ("front", 1), ("back", 1), ("up", 3), ("down", 3)]]

/-- Initial data encoding `(block, z, y, x)` as a single rational. -/
def torusData : Geometry.D :=
  fun b k j i => (((b : ℤ) * 1000 + k * 100 + j * 10 + i : ℤ) : ℚ)

/-- The array produced by the guard fill on the 2x2 torus. -/
def guardOutW : Geometry.D :=
  (Geometry.guard_cells_from_data ⟨4, 4, 4, 1, 3⟩ torusStruct
    torusData).toOption.getD (fun _ _ _ _ => 0)

namespace SortedDict

/-! ### Basic lemmas about the `SortedDict` model -/
theorem sortByKey_perm (l : List Rec) : (sortByKey l).Perm l :=
  List.perm_insertionSort keyLE l

theorem sortByKey_sorted (l : List Rec) : List.Sorted keyLE (sortByKey l) :=
  List.sorted_insertionSort keyLE l

@[simp] theorem make_valid_valid (s : SortedDict) : (make_valid s).is_valid = true := by
  unfold make_valid
  by_cases h : s.is_valid <;> simp [h]

@[simp] theorem make_valid_idem (s : SortedDict) : make_valid (make_valid s) = make_valid s := by
  unfold make_valid
  by_cases h : s.is_valid <;> simp [h]

theorem make_valid_perm (s : SortedDict) : (make_valid s).data.Perm s.data := by
  unfold make_valid
  by_cases h : s.is_valid <;> simp [h, sortByKey_perm]

@[simp] theorem readData_make_valid (s : SortedDict) :
    readData (make_valid s) = readData s := by
  unfold readData; rw [make_valid_idem]

theorem readData_perm (s : SortedDict) : (readData s).Perm s.data :=
  make_valid_perm s

theorem readData_eq_of_valid (s : SortedDict) (h : s.is_valid = true) :
    readData s = s.data := by
  unfold readData make_valid; simp [h]

/-- Keys found by `keyIndex` really exist at the reported position. -/
theorem keyIndex_eq_some (l : List Rec) (k : ℚ) (i : ℕ)
    (h : keyIndex l k = some i) : ∃ r, l.get? i = some r ∧ r.key = k := by
  unfold keyIndex at h
  rcases List.getLast?_eq_some_iff.mp h with ⟨ys, hys⟩
  have hmem : i ∈ (l.enum.filterMap (fun p => if p.2.key = k then some p.1 else none)) := by
    rw [hys]; simp
  rcases List.mem_filterMap.mp hmem with ⟨⟨j, r⟩, hjr, hsome⟩
  by_cases hk : r.key = k
  · rcases List.mem_enumFrom hjr with ⟨-, hlt, hget⟩
    rw [if_pos hk, Option.some.injEq] at hsome
    subst hsome
    refine ⟨r, ?_, hk⟩
    simp only [Nat.zero_add] at hlt
    simp only [Nat.sub_zero] at hget
    rw [List.get?_eq_getElem?, List.getElem?_eq_getElem hlt, hget]
  · simp [hk] at hsome

/-- `keyIndex` misses exactly the absent keys. -/
theorem keyIndex_eq_none (l : List Rec) (k : ℚ) :
    keyIndex l k = none ↔ k ∉ keysList l := by
  unfold keyIndex
  rw [List.getLast?_eq_none_iff, List.filterMap_eq_nil_iff]
  constructor
  · intro h hk
    rcases List.mem_map.mp hk with ⟨r, hr, hkey⟩
    rcases List.get_of_mem hr with ⟨⟨j, hj⟩, rfl⟩
    have hmem : (j, l.get ⟨j, hj⟩) ∈ l.enum := by
      simp [List.mem_enum_iff_getElem?, List.getElem?_eq_getElem hj]
    have := h _ hmem
    simp only [List.get_eq_getElem] at hkey
    simp [hkey] at this
  · intro h p hp
    obtain ⟨j, r⟩ := p
    rcases List.mem_enumFrom hp with ⟨-, hlt, hget⟩
    simp only [Nat.zero_add] at hlt
    simp only [Nat.sub_zero] at hget
    have hne : r.key ≠ k := by
      intro hk
      apply h
      apply List.mem_map.mpr
      exact ⟨r, by rw [hget]; exact List.getElem_mem hlt, hk⟩
    simp [hne]

/-- Membership in `keysList` survives `make_valid` (it is a permutation). -/
theorem mem_keysList_make_valid (s : SortedDict) (k : ℚ) :
    k ∈ keysList (make_valid s).data ↔ k ∈ keysList s.data := by
  unfold keysList
  exact ((make_valid_perm s).map Rec.key).mem_iff

theorem set_is_unique_eq_false (source sequence : List ℚ) :
    set_is_unique source sequence = false ↔ ∃ k ∈ sequence, k ∈ source := by
  simp [set_is_unique, List.any_eq_true]

theorem set_is_unique_eq_true (source sequence : List ℚ) :
    set_is_unique source sequence = true ↔ ∀ k ∈ sequence, k ∉ source := by
  simp [set_is_unique, List.any_eq_true]

/-! Characterization equations for the mutators. -/
theorem append_eq_dup {s : SortedDict} {v : Rec} {i : ℕ}
    (hidx : keyIndex (make_valid s).data v.key = some i) :
    s.append v = (make_valid s, some (.nonuniqueAppend v.key i)) := by
  unfold SortedDict.append
  simp only [hidx]

theorem append_eq_ok {s : SortedDict} {v : Rec}
    (hidx : keyIndex (make_valid s).data v.key = none) :
    s.append v =
      (⟨(make_valid s).data ++ [v],
        if (!(make_valid s).data.isEmpty &&
            (lastKey (make_valid s).data).any fun m => decide (v.key < m)) = true
        then false else true⟩, none) := by
  unfold SortedDict.append
  simp only [hidx, make_valid_valid]

theorem extend_eq_dup {s : SortedDict} {batch : List Rec}
    (hu : set_is_unique (keysList (make_valid s).data) (keysList batch) = false) :
    s.extend batch = (make_valid s, some .nonuniqueInCollection) := by
  unfold SortedDict.extend
  simp only [hu, Bool.false_eq_true, if_false]

theorem extend_eq_ok {s : SortedDict} {batch : List Rec}
    (hu : set_is_unique (keysList (make_valid s).data) (keysList batch) = true) :
    s.extend batch = (⟨(make_valid s).data ++ batch, false⟩, none) := by
  unfold SortedDict.extend
  simp only [hu, if_true]

theorem concat_eq_dup {s : SortedDict} {other : List Rec}
    (hu : set_is_unique (keysList (make_valid s).data) (keysList other) = false) :
    s.concat other = (make_valid s, .error .nonuniqueInCollection) := by
  unfold SortedDict.concat
  simp only [hu, Bool.false_eq_true, if_false]

theorem inv_init (l : List Rec) (h : (keysList l).Nodup) : Inv (init l) :=
  ⟨h, by intro hv; simp [SortedDict.init] at hv⟩

theorem keysList_perm {l l' : List Rec} (h : l.Perm l') :
    (keysList l).Perm (keysList l') := h.map Rec.key

theorem inv_make_valid {s : SortedDict} (h : Inv s) : Inv (make_valid s) := by
  refine ⟨((keysList_perm (make_valid_perm s)).nodup_iff).mpr h.1, fun _ => ?_⟩
  unfold SortedDict.make_valid
  by_cases hv : s.is_valid
  · simp only [hv, if_true]; exact h.2 hv
  · simp only [hv, Bool.false_eq_true, if_false]; exact sortByKey_sorted s.data

theorem make_valid_sorted {s : SortedDict} (h : Inv s) :
    List.Sorted keyLE (make_valid s).data :=
  (inv_make_valid h).2 (make_valid_valid s)

theorem readData_sorted {s : SortedDict} (h : Inv s) :
    List.Sorted keyLE (readData s) := make_valid_sorted h

/-- In a sorted record list, every key is bounded by the last one. -/
theorem key_le_of_mem_sorted {l : List Rec} (hs : List.Sorted keyLE l) :
    ∀ r ∈ l, ∀ m, lastKey l = some m → r.key ≤ m := by
  induction l with
  | nil => intro r hr; cases hr
  | cons a t ih =>
      intro r hr m hm
      rcases List.mem_cons.mp hr with rfl | hrt
      · cases t with
        | nil =>
            simp only [lastKey, keysList, List.map_cons, List.map_nil,
              List.getLast?_singleton, Option.some.injEq] at hm
            exact hm.le
        | cons b u =>
            have hab : keyLE r b := (List.sorted_cons.mp hs).1 b (List.mem_cons_self b u)
            have hbm := ih (List.sorted_cons.mp hs).2 b (List.mem_cons_self b u) m
              (by simpa [lastKey, keysList] using hm)
            exact le_trans hab hbm
      · refine ih (List.sorted_cons.mp hs).2 r hrt m ?_
        cases t with
        | nil => cases hrt
        | cons b u => simpa [lastKey, keysList] using hm

theorem inv_append {s : SortedDict} {v : Rec} (h : Inv s)
    (hok : (s.append v).2 = none) : Inv (s.append v).1 := by
  have hmv := inv_make_valid h
  cases hidx : keyIndex (make_valid s).data v.key with
  | some i => rw [append_eq_dup hidx] at hok; cases hok
  | none =>
      have hnotmem : v.key ∉ keysList (make_valid s).data :=
        (keyIndex_eq_none _ _).mp hidx
      rw [append_eq_ok hidx]
      constructor
      · simp only [keysList, List.map_append, List.map_cons, List.map_nil]
        rw [List.nodup_append]
        refine ⟨hmv.1, List.nodup_singleton _, ?_⟩
        intro a ha hb
        simp only [List.mem_singleton] at hb
        subst hb
        exact hnotmem ha
      · intro hvflag
        dsimp only at hvflag ⊢
        by_cases hinv :
            (!(make_valid s).data.isEmpty &&
              (lastKey (make_valid s).data).any fun m => decide (v.key < m)) = true
        · rw [if_pos hinv] at hvflag; cases hvflag
        · refine List.pairwise_append.mpr
            ⟨make_valid_sorted h, List.sorted_singleton _, ?_⟩
          intro b ha w hw
          simp only [List.mem_singleton] at hw
          rw [show keyLE b w = keyLE b v by rw [hw]]
          cases hdata : (make_valid s).data with
          | nil => rw [hdata] at ha; cases ha
          | cons x t =>
              have hne : (make_valid s).data.isEmpty = false := by
                rw [hdata]; rfl
              cases hB : ((lastKey (make_valid s).data).any fun m => decide (v.key < m)) with
              | true => exact absurd (by rw [hne, hB]; rfl) hinv
              | false =>
                  have hlast : ∃ m, lastKey (make_valid s).data = some m := by
                    rw [hdata]
                    simp only [lastKey, keysList, List.map_cons]
                    exact Option.isSome_iff_exists.mp (by rw [List.getLast?_isSome]; simp)
                  rcases hlast with ⟨m, hm⟩
                  rw [hm] at hB
                  simp only [Option.any_some, decide_eq_false_iff_not] at hB
                  have hle : b.key ≤ m := key_le_of_mem_sorted (make_valid_sorted h) b ha m hm
                  exact le_trans hle (not_lt.mp hB)

theorem inv_extend {s : SortedDict} {batch : List Rec} (h : Inv s)
    (hbatch : (keysList batch).Nodup)
    (hok : (s.extend batch).2 = none) : Inv (s.extend batch).1 := by
  have hmv := inv_make_valid h
  by_cases hu : set_is_unique (keysList (make_valid s).data) (keysList batch) = true
  · rw [extend_eq_ok hu]
    refine ⟨?_, by intro hfoo; cases hfoo⟩
    simp only [keysList, List.map_append]
    rw [List.nodup_append]
    exact ⟨hmv.1, hbatch, fun a ha hb =>
      (set_is_unique_eq_true _ _).mp hu a hb ha⟩
  · simp only [Bool.not_eq_true] at hu
    rw [extend_eq_dup hu] at hok
    cases hok

theorem readKeys_pairwise_lt {s : SortedDict} (h : Inv s) :
    List.Pairwise (· < ·) (readKeys s) := by
  have hsorted : List.Pairwise keyLE (readData s) := readData_sorted h
  have hnodup : (keysList (readData s)).Nodup :=
    ((keysList_perm (readData_perm s)).nodup_iff).mpr h.1
  have hle : List.Pairwise (· ≤ ·) (keysList (readData s)) :=
    List.pairwise_map.mpr hsorted
  have hand := List.Pairwise.and hle hnodup
  exact hand.imp (fun hab => lt_of_le_of_ne hab.1 hab.2)

theorem inv_runOps {s : SortedDict} {ops : List SDOp} (h : Inv s)
    (hb : BatchesNodup ops) {s' : SortedDict}
    (hrun : runOps s ops = (s', none)) : Inv s' := by
  induction ops generalizing s with
  | nil => unfold runOps at hrun; cases hrun; exact h
  | cons op ops ih =>
      unfold runOps at hrun
      cases op with
      | app r =>
          dsimp only at hrun
          cases hstep : s.append r with
          | mk s₁ e =>
              rw [hstep] at hrun
              cases e with
              | none =>
                  exact ih (by
                    have := inv_append h (by rw [hstep])
                    rwa [hstep] at this)
                    (fun b hbm => hb b (List.mem_cons_of_mem _ hbm)) hrun
              | some e => cases hrun
      | ext batch =>
          dsimp only at hrun
          cases hstep : s.extend batch with
          | mk s₁ e =>
              rw [hstep] at hrun
              cases e with
              | none =>
                  exact ih (by
                    have := inv_extend h (hb batch (List.mem_cons_self _ _))
                      (by rw [hstep])
                    rwa [hstep] at this)
                    (fun b hbm => hb b (List.mem_cons_of_mem _ hbm)) hrun
              | some e => cases hrun

end SortedDict

open SortedDict in
/-- C1 (amended): starting from a `SortedDict` built by the constructor from
records with pairwise-distinct keys, after any sequence of `append`/`extend`
calls that completes without raising **and in which each single `extend`
batch has pairwise-distinct keys**, a read-through observes the records in
strictly ascending key order. -/
theorem C1_sort_invariant (l₀ : List Rec) (ops : List SDOp)
    (h₀ : (keysList l₀).Nodup) (hb : BatchesNodup ops) (s' : SortedDict)
    (hrun : runOps (SortedDict.init l₀) ops = (s', none)) :
    List.Pairwise (· < ·) (readKeys s') :=
  readKeys_pairwise_lt (inv_runOps (inv_init l₀ h₀) hb hrun)

open SortedDict in
/-- C1, claim as stated, is false: an `extend` whose batch repeats a key
completes without raising (`_set_is_unique` only checks the incoming key
*set* against the existing keys), after which iteration observes keys
`[1, 1]` — not strictly ascending. -/
theorem C1_counterexample :
    (runOps (SortedDict.init []) [SDOp.ext [⟨1, []⟩, ⟨1, []⟩]]).2 = none ∧
    readKeys (runOps (SortedDict.init []) [SDOp.ext [⟨1, []⟩, ⟨1, []⟩]]).1 = [1, 1] ∧
    ¬ List.Pairwise (· < ·)
        (readKeys (runOps (SortedDict.init []) [SDOp.ext [⟨1, []⟩, ⟨1, []⟩]]).1) := by
  refine ⟨rfl, rfl, ?_⟩
  intro hpw
  rw [show readKeys (runOps (SortedDict.init []) [SDOp.ext [⟨1, []⟩, ⟨1, []⟩]]).1
      = [1, 1] from rfl] at hpw
  exact absurd ((List.pairwise_cons.mp hpw).1 1 (List.mem_singleton.mpr rfl))
    (lt_irrefl 1)

open SortedDict in
/-- Witness for `C1_sort_invariant` at a concrete out-of-order call
sequence. -/
theorem C1_sort_invariant_witness :
    (keysList []).Nodup ∧
    BatchesNodup [SDOp.app ⟨3, []⟩, SDOp.app ⟨1, []⟩, SDOp.ext [⟨2, []⟩, ⟨5, []⟩]] ∧
    List.Pairwise (· < ·)
      (readKeys (runOps (SortedDict.init [])
        [SDOp.app ⟨3, []⟩, SDOp.app ⟨1, []⟩, SDOp.ext [⟨2, []⟩, ⟨5, []⟩]]).1) := by
  refine ⟨List.nodup_nil, ?_, ?_⟩
  · intro b hbm
    simp only [List.mem_cons, List.not_mem_nil, or_false] at hbm
    rcases hbm with h | h | h
    · cases h
    · cases h
    · cases h; decide
  · exact C1_sort_invariant [] _ List.nodup_nil
      (by
        intro b hbm
        simp only [List.mem_cons, List.not_mem_nil, or_false] at hbm
        rcases hbm with h | h | h
        · cases h
        · cases h
        · cases h; decide)
      _ rfl

open SortedDict in
/-- C2 (amended): inserting a record whose key already occurs raises a
uniqueness `ValueError` from each of `append`, `extend` and `+`, and the
externally observable state of the collection is unchanged by the failed
call; **only `append`'s error message identifies the existing position**
(`extend` and `+` raise a constant message carrying no position). -/
theorem C2_duplicate_key_rejected (s : SortedDict) (v : Rec) (other : List Rec)
    (hmem : v.key ∈ keysList s.data) (hother : v ∈ other) :
    (∃ idx r', (s.append v).2 = some (.nonuniqueAppend v.key idx) ∧
        (make_valid s).data.get? idx = some r' ∧ r'.key = v.key ∧
        readData (s.append v).1 = readData s) ∧
    ((s.extend other).2 = some .nonuniqueInCollection ∧
        readData (s.extend other).1 = readData s) ∧
    ((s.concat other).2 = Except.error .nonuniqueInCollection ∧
        readData (s.concat other).1 = readData s) := by
  have hmemv : v.key ∈ keysList (make_valid s).data :=
    (mem_keysList_make_valid s v.key).mpr hmem
  have hotherkey : v.key ∈ keysList other :=
    List.mem_map.mpr ⟨v, hother, rfl⟩
  have hu : set_is_unique (keysList (make_valid s).data) (keysList other) = false :=
    (set_is_unique_eq_false _ _).mpr ⟨v.key, hotherkey, hmemv⟩
  refine ⟨?_, ?_, ?_⟩
  · cases hidx : keyIndex (make_valid s).data v.key with
    | none => exact absurd hmemv ((keyIndex_eq_none _ _).mp hidx)
    | some i =>
        rcases keyIndex_eq_some _ _ _ hidx with ⟨r', hget, hkey⟩
        refine ⟨i, r', ?_, hget, hkey, ?_⟩
        · rw [append_eq_dup hidx]
        · rw [append_eq_dup hidx, readData_make_valid]
  · rw [extend_eq_dup hu]
    exact ⟨rfl, readData_make_valid s⟩
  · rw [concat_eq_dup hu]
    exact ⟨rfl, readData_make_valid s⟩

open SortedDict in
/-- C2, claim as stated, is false for `extend`/`+`: their error is the same
constant value whatever the conflicting key's existing position is, so it
cannot identify that position — two series holding key `5` at positions `0`
and `1` respectively produce identical errors. -/
theorem C2_counterexample :
    (SortedDict.extend (SortedDict.init [⟨5, []⟩, ⟨9, []⟩]) [⟨5, []⟩]).2 =
      (SortedDict.extend (SortedDict.init [⟨1, []⟩, ⟨5, []⟩]) [⟨5, []⟩]).2 ∧
    (SortedDict.extend (SortedDict.init [⟨5, []⟩, ⟨9, []⟩]) [⟨5, []⟩]).2 =
      some .nonuniqueInCollection ∧
    keyIndex (readData (SortedDict.init [⟨5, []⟩, ⟨9, []⟩])) 5 = some 0 ∧
    keyIndex (readData (SortedDict.init [⟨1, []⟩, ⟨5, []⟩])) 5 = some 1 :=
  ⟨rfl, rfl, rfl, rfl⟩

/-! Characterization of `_first_true` over the key/position pairs. -/
theorem first_true_cons {α : Type} (x : α) (xs : List α) (p : α → Bool) :
    first_true (x :: xs) p = if p x then .ok x else first_true xs p := by
  by_cases h : p x
  · rw [if_pos h]; unfold first_true; rw [List.find?_cons_of_pos _ h]
  · rw [if_neg h]; unfold first_true; rw [List.find?_cons_of_neg _ h]

theorem first_true_eq_error {α : Type} (l : List α) (p : α → Bool)
    (h : ∀ x ∈ l, p x = false) : first_true l p = .error .stopIteration := by
  unfold first_true
  rw [List.find?_eq_none.mpr (fun x hx => by rw [h x hx]; exact Bool.false_ne_true)]

namespace SortedDict

/-- `_first_true(self._keys.items(), lambda x: p(x[0]))` resolves to the
position of the first record satisfying `p`, counted by the maximal failing
prefix. -/
theorem first_true_keyItems_from (p : ℚ → Bool) (l : List Rec) :
    ∀ n : ℕ, (∃ r ∈ l, p r.key = true) →
    ∃ k, first_true ((l.enumFrom n).map fun q => (q.2.key, q.1)) (fun x => p x.1)
      = .ok (k, n + (l.takeWhile fun r => !p r.key).length) := by
  induction l with
  | nil => intro n hex; rcases hex with ⟨r, hr, _⟩; cases hr
  | cons a t ih =>
      intro n hex
      by_cases hpa : p a.key = true
      · refine ⟨a.key, ?_⟩
        rw [List.enumFrom_cons, List.map_cons, first_true_cons]
        simp [hpa, List.takeWhile_cons]
      · rcases hex with ⟨r, hr, hp⟩
        rcases List.mem_cons.mp hr with rfl | hrt
        · exact absurd hp hpa
        obtain ⟨k, hk⟩ := ih (n + 1) ⟨r, hrt, hp⟩
        refine ⟨k, ?_⟩
        have hlen : (List.takeWhile (fun r => !p r.key) (a :: t)).length
            = (List.takeWhile (fun r => !p r.key) t).length + 1 := by
          rw [List.takeWhile_cons, if_pos (by simp [hpa])]
          simp
        rw [List.enumFrom_cons, List.map_cons, first_true_cons,
          if_neg (by simpa using hpa), hk, hlen]
        have harith : n + 1 + (List.takeWhile (fun r => !p r.key) t).length
            = n + ((List.takeWhile (fun r => !p r.key) t).length + 1) := by omega
        rw [harith]

theorem takeWhile_append_single_false {α : Type} (p : α → Bool) (a : α)
    (h : p a = false) : ∀ l : List α,
    List.takeWhile p (l ++ [a]) = List.takeWhile p l
  | [] => by simp [List.takeWhile_cons, h]
  | x :: xs => by
      rw [List.cons_append, List.takeWhile_cons, List.takeWhile_cons]
      by_cases hx : p x
      · rw [if_pos hx, if_pos hx, takeWhile_append_single_false p a h xs]
      · rw [if_neg hx, if_neg hx]

/-- Scanning `reversed(self._keys.items())` for the first key `≤ hi` finds
the position of the last record of the maximal `≤ hi` prefix (the list being
sorted). -/
theorem first_true_keyItems_rev_le (hi : ℚ) (l : List Rec)
    (hsorted : List.Sorted keyLE l)
    (hex : ∃ r ∈ l, decide (r.key ≤ hi) = true) :
    ∃ k, first_true (keyItems l).reverse (fun x => decide (x.1 ≤ hi))
      = .ok (k, (l.takeWhile fun r => decide (r.key ≤ hi)).length - 1) ∧
      1 ≤ (l.takeWhile fun r => decide (r.key ≤ hi)).length := by
  induction l using List.reverseRecOn with
  | nil => rcases hex with ⟨r, hr, _⟩; cases hr
  | append_singleton l' a ih =>
      have hsl' : List.Sorted keyLE l' := (List.pairwise_append.mp hsorted).1
      have hla : ∀ x ∈ l', keyLE x a := fun x hx =>
        (List.pairwise_append.mp hsorted).2.2 x hx a (List.mem_singleton.mpr rfl)
      have hkeyItems : keyItems (l' ++ [a]) = keyItems l' ++ [(a.key, l'.length)] := by
        unfold keyItems
        rw [show (l' ++ [a]).enum = l'.enum ++ List.enumFrom l'.length [a] from
          List.enum_append l' [a]]
        simp [List.enumFrom_cons]
      by_cases hpa : decide (a.key ≤ hi) = true
      · refine ⟨a.key, ?_, ?_⟩
        · rw [hkeyItems, List.reverse_append, List.reverse_singleton,
            List.singleton_append, first_true_cons, if_pos (by simpa using hpa)]
          have hall : List.takeWhile (fun r => decide (r.key ≤ hi)) (l' ++ [a])
              = l' ++ [a] := by
            rw [List.takeWhile_eq_self_iff]
            intro x hx
            rcases List.mem_append.mp hx with hx | hx
            · exact decide_eq_true (le_trans (hla x hx) (of_decide_eq_true hpa))
            · rw [List.mem_singleton.mp hx]; exact hpa
          rw [hall]
          simp
        · have hall : List.takeWhile (fun r => decide (r.key ≤ hi)) (l' ++ [a])
              = l' ++ [a] := by
            rw [List.takeWhile_eq_self_iff]
            intro x hx
            rcases List.mem_append.mp hx with hx | hx
            · exact decide_eq_true (le_trans (hla x hx) (of_decide_eq_true hpa))
            · rw [List.mem_singleton.mp hx]; exact hpa
          rw [hall]
          simp
      · have hpa' : decide (a.key ≤ hi) = false := by
          cases h : decide (a.key ≤ hi)
          · rfl
          · exact absurd h hpa
        have hex' : ∃ r ∈ l', decide (r.key ≤ hi) = true := by
          rcases hex with ⟨r, hr, hp⟩
          rcases List.mem_append.mp hr with hr | hr
          · exact ⟨r, hr, hp⟩
          · rw [List.mem_singleton.mp hr] at hp
            exact absurd hp hpa
        obtain ⟨k, hk, hlen⟩ := ih hsl' hex'
        refine ⟨k, ?_, ?_⟩
        · rw [hkeyItems, List.reverse_append, List.reverse_singleton,
            List.singleton_append, first_true_cons, if_neg (by simpa using hpa),
            hk, takeWhile_append_single_false (fun r => decide (r.key ≤ hi)) a hpa' l']
        · rw [takeWhile_append_single_false (fun r => decide (r.key ≤ hi)) a hpa' l']
          exact hlen

/-- The `[start:stop]` integer slice of a list (`step` omitted), with the
bounds already in range, is the usual `drop`/`take` window. -/
theorem pyListSlice_eq {α : Type} (l : List α) (a b : ℕ) (hb : b ≤ l.length) :
    pyListSlice l a b none = (l.drop a).take (b - a) := by
  have haux : ∀ (n a : ℕ), a + n ≤ l.length →
      ((List.range n).map fun t : ℕ => ((a : ℤ) + (t : ℤ))).filterMap
        (fun i => l.get? i.toNat) = (l.drop a).take n := by
    intro n
    induction n with
    | zero => intro a _; simp
    | succ m ihm =>
        intro a ha
        rw [List.range_succ, List.map_append, List.filterMap_append, ihm a (by omega)]
        have hget : l.get? ((((a : ℤ) + (m : ℤ))).toNat) = some (l.get ⟨a + m, by omega⟩) := by
          have h1 : (((a : ℤ) + (m : ℤ))).toNat = a + m := by omega
          rw [h1, List.get?_eq_getElem?, List.getElem?_eq_getElem (by omega)]
          simp [List.get_eq_getElem]
        rw [List.take_succ]
        simp only [List.map_cons, List.map_nil, List.filterMap_cons, List.filterMap_nil, hget]
        congr 1
        rw [List.getElem?_drop, List.getElem?_eq_getElem (by omega)]
        simp
  unfold pyListSlice sliceIndices
  simp only [Option.getD_none, Option.getD_some]
  rw [if_neg (by omega)]
  have hnorm : ∀ v : ℕ, (if (v : ℤ) < 0 then (v : ℤ) + (l.length : ℤ) else (v : ℤ)) = v := by
    intro v; rw [if_neg (by omega)]
  rw [hnorm a, hnorm b]
  have hmaxa : max (a : ℤ) 0 = (a : ℤ) := by omega
  have hminb : min (b : ℤ) (l.length : ℤ) = (b : ℤ) := by omega
  rw [hmaxa, hminb]
  have hcast : (max 0 ((b : ℤ) - (a : ℤ))).toNat = b - a := by omega
  rw [hcast]
  by_cases hab : a ≤ b
  · exact haux (b - a) a (by omega)
  · have h0 : b - a = 0 := by omega
    rw [h0]
    simp

/-- In a sorted list, the records with key `≤ hi` form the maximal prefix
with that property. -/
theorem sorted_takeWhile_le (hi : ℚ) : ∀ {l : List Rec},
    List.Sorted keyLE l →
    List.takeWhile (fun r => decide (r.key ≤ hi)) l
      = List.filter (fun r => decide (r.key ≤ hi)) l := by
  intro l
  induction l with
  | nil => intro _; rfl
  | cons a t ih =>
      intro hs
      rw [List.takeWhile_cons, List.filter_cons]
      by_cases hpa : decide (a.key ≤ hi) = true
      · rw [if_pos hpa, if_pos hpa, ih (List.sorted_cons.mp hs).2]
      · have hgt : ¬ a.key ≤ hi := by
          intro hle; exact hpa (decide_eq_true hle)
        rw [if_neg hpa, if_neg hpa]
        rw [eq_comm, List.filter_eq_nil_iff]
        intro x hx hpx
        have := (List.sorted_cons.mp hs).1 x hx
        exact hgt (le_trans this (of_decide_eq_true hpx))

/-- In a sorted list, the records with key `≥ lo` form the maximal suffix
with that property. -/
theorem sorted_dropWhile_lt (lo : ℚ) : ∀ {l : List Rec},
    List.Sorted keyLE l →
    List.dropWhile (fun r => decide (r.key < lo)) l
      = List.filter (fun r => decide (lo ≤ r.key)) l := by
  intro l
  induction l with
  | nil => intro _; rfl
  | cons a t ih =>
      intro hs
      rw [List.dropWhile_cons, List.filter_cons]
      by_cases hpa : decide (a.key < lo) = true
      · have : decide (lo ≤ a.key) = false := by
          simp only [decide_eq_false_iff_not, not_le]
          exact of_decide_eq_true hpa
        rw [if_pos hpa, this, if_neg (by simp), ih (List.sorted_cons.mp hs).2]
      · have hge : lo ≤ a.key := not_lt.mp (fun h => hpa (decide_eq_true h))
        rw [if_neg hpa, if_pos (decide_eq_true hge)]
        congr 1
        rw [eq_comm]
        apply List.filter_eq_self.mpr
        intro x hx
        exact decide_eq_true (le_trans hge ((List.sorted_cons.mp hs).1 x hx))

/-- The closed-interval window of a sorted list: dropping the `< lo` prefix
from the `≤ hi` prefix yields exactly the records with key in `[lo, hi]`. -/
theorem sorted_interval_filter (lo hi : ℚ) : ∀ {l : List Rec},
    List.Sorted keyLE l →
    (List.takeWhile (fun r => decide (r.key ≤ hi)) l).drop
        (List.takeWhile (fun r => decide (r.key < lo)) l).length
      = l.filter (fun r => decide (lo ≤ r.key) && decide (r.key ≤ hi)) := by
  intro l
  induction l with
  | nil => intro _; rfl
  | cons a t ih =>
      intro hs
      have hst := (List.sorted_cons.mp hs).2
      have hmin := (List.sorted_cons.mp hs).1
      by_cases hlo : decide (a.key < lo) = true
      · have halo : a.key < lo := of_decide_eq_true hlo
        rw [List.takeWhile_cons (fun r : Rec => decide (r.key < lo)), if_pos hlo]
        by_cases hhi : decide (a.key ≤ hi) = true
        · rw [List.takeWhile_cons, if_pos hhi, List.filter_cons,
            if_neg (by simp [not_le.mpr halo]), List.length_cons, List.drop_succ_cons]
          exact ih hst
        · have hagt : hi < a.key := not_le.mp (fun h => hhi (decide_eq_true h))
          rw [List.takeWhile_cons, if_neg hhi, List.drop_nil, eq_comm,
            List.filter_eq_nil_iff]
          intro x hx hpx
          rcases List.mem_cons.mp hx with rfl | hxt
          · simp only [Bool.and_eq_true, decide_eq_true_eq] at hpx
            exact absurd hpx.2 (not_le.mpr hagt)
          · simp only [Bool.and_eq_true, decide_eq_true_eq] at hpx
            exact absurd hpx.2 (not_le.mpr (lt_of_lt_of_le hagt (hmin x hxt)))
      · have hage : lo ≤ a.key := not_lt.mp (fun h => hlo (decide_eq_true h))
        rw [List.takeWhile_cons (fun r : Rec => decide (r.key < lo)), if_neg hlo,
          List.length_nil, List.drop_zero]
        by_cases hhi : decide (a.key ≤ hi) = true
        · rw [List.takeWhile_cons, if_pos hhi, List.filter_cons,
            if_pos (by simp [hage, of_decide_eq_true hhi])]
          congr 1
          have htw : List.takeWhile (fun r => decide (r.key < lo)) t = [] := by
            cases t with
            | nil => rfl
            | cons b u =>
                rw [List.takeWhile_cons, if_neg ?_]
                simp only [decide_eq_true_eq, not_lt]
                exact le_trans hage (hmin b (List.mem_cons_self b u))
          have := ih hst
          rw [htw] at this
          simpa using this
        · have hagt : hi < a.key := not_le.mp (fun h => hhi (decide_eq_true h))
          rw [List.takeWhile_cons, if_neg hhi, eq_comm, List.filter_eq_nil_iff]
          intro x hx hpx
          rcases List.mem_cons.mp hx with rfl | hxt
          · simp only [Bool.and_eq_true, decide_eq_true_eq] at hpx
            exact absurd hpx.2 (not_le.mpr hagt)
          · simp only [Bool.and_eq_true, decide_eq_true_eq] at hpx
            exact absurd hpx.2 (not_le.mpr (lt_of_lt_of_le hagt (hmin x hxt)))

theorem except_bind_ok {ε α β : Type} (a : α) (f : α → Except ε β) :
    ((Except.ok a : Except ε α) >>= f) = f a := rfl

theorem except_bind_error {ε α β : Type} (e : ε) (f : α → Except ε β) :
    ((Except.error e : Except ε α) >>= f) = .error e := rfl

theorem except_map_ok {ε α β : Type} (f : α → β) (a : α) :
    (Except.ok a : Except ε α).map f = .ok (f a) := rfl

theorem except_map_error {ε α β : Type} (f : α → β) (e : ε) :
    (Except.error e : Except ε α).map f = .error e := rfl

theorem bnot_decide_le (q x : ℚ) : (!decide (q ≤ x)) = decide (x < q) := by
  rw [← decide_not]
  exact decide_eq_decide.mpr not_le

theorem keyItems_eq_enumFrom (l : List Rec) :
    keyItems l = (l.enumFrom 0).map fun q => (q.2.key, q.1) := rfl

theorem take_takeWhile_length {α : Type} (p : α → Bool) (l : List α) :
    l.take (l.takeWhile p).length = l.takeWhile p := by
  have h : List.take (l.takeWhile p).length (l.takeWhile p ++ l.dropWhile p)
      = l.takeWhile p := List.take_left' rfl
  rwa [List.takeWhile_append_dropWhile] at h

theorem drop_takeWhile_length {α : Type} (p : α → Bool) (l : List α) :
    l.drop (l.takeWhile p).length = l.dropWhile p := by
  have h : List.drop (l.takeWhile p).length (l.takeWhile p ++ l.dropWhile p)
      = l.dropWhile p := List.drop_left' rfl
  rwa [List.takeWhile_append_dropWhile] at h

theorem mem_keyItems (l : List Rec) (x : ℚ × ℕ) (hx : x ∈ keyItems l) :
    ∃ r ∈ l, x.1 = r.key := by
  rw [keyItems_eq_enumFrom] at hx
  rcases List.mem_map.mp hx with ⟨⟨i, r⟩, hir, hxr⟩
  rcases List.mem_enumFrom hir with ⟨-, hlt, hget⟩
  refine ⟨r, ?_, by rw [← hxr]⟩
  simp only [Nat.zero_add] at hlt
  simp only [Nat.sub_zero] at hget
  rw [hget]
  exact List.getElem_mem hlt

theorem inClosed_some_some (a b k : ℚ) :
    inClosed (some a) (some b) k = (decide (a ≤ k) && decide (k ≤ b)) := rfl

theorem inClosed_some_none (a k : ℚ) :
    inClosed (some a) none k = (decide (a ≤ k) && true) := rfl

theorem inClosed_none_some (b k : ℚ) :
    inClosed none (some b) k = (true && decide (k ≤ b)) := rfl

theorem inClosed_none_none (k : ℚ) : inClosed none none k = true := rfl

theorem except_pure_eq_ok {ε α : Type} (a : α) :
    (pure a : Except ε α) = .ok a := rfl

theorem takeWhile_notle_eq (q : ℚ) (l : List Rec) :
    (l.takeWhile fun r => !decide (q ≤ r.key))
      = l.takeWhile fun r => decide (r.key < q) := by
  congr 1
  funext r
  exact bnot_decide_le q r.key

end SortedDict

open SortedDict in
/-- C3 (amended): whenever the float bounds are *resolvable* — `lo` is
omitted or some key is `≥ lo`, and `hi` is omitted or some key is `≤ hi` —
the float-bounded slice returns exactly the records whose key lies in the
closed interval `[lo, hi]`.  (When a bound is unresolvable the call raises
`StopIteration` instead of returning the empty series; see the
counterexample.) -/
theorem C3_float_slice_closed_interval (s : SortedDict)
    (hsorted : List.Sorted keyLE (readData s)) (lo hi : Option ℚ)
    (hlo : ∀ q, lo = some q → ∃ r ∈ readData s, q ≤ r.key)
    (hhi : ∀ q, hi = some q → ∃ r ∈ readData s, r.key ≤ q) :
    (getitem_fslice s lo hi none).2 =
      .ok (SortedDict.from_sorted
        ((readData s).filter (fun r => inClosed lo hi r.key))) := by
  unfold getitem_fslice
  dsimp only
  rw [show readData s = (make_valid s).data from rfl]
  rw [show readData s = (make_valid s).data from rfl] at hsorted
  cases lo with
  | some q =>
      have hex : ∃ r ∈ (make_valid s).data, decide (q ≤ r.key) = true := by
        rcases hlo q rfl with ⟨r, hr, hq⟩
        exact ⟨r, hr, decide_eq_true hq⟩
      obtain ⟨kk, hk⟩ := first_true_keyItems_from (fun z => decide (q ≤ z))
        ((make_valid s).data) 0 hex
      dsimp only
      rw [keyItems_eq_enumFrom, hk, except_map_ok, except_bind_ok]
      cases hi with
      | some q' =>
          have hex' : ∃ r ∈ (make_valid s).data, decide (r.key ≤ q') = true := by
            rcases hhi q' rfl with ⟨r, hr, hq⟩
            exact ⟨r, hr, decide_eq_true hq⟩
          obtain ⟨kk', hk', hlen1⟩ := first_true_keyItems_rev_le q'
            ((make_valid s).data) hsorted hex'
          rw [keyItems_eq_enumFrom] at hk'
          dsimp only
          rw [hk', except_map_ok, except_bind_ok, except_pure_eq_ok]
          simp only [Except.ok.injEq]
          congr 1
          have hstop :
              ((make_valid s).data.takeWhile fun r => decide (r.key ≤ q')).length
              - 1 + 1
              = ((make_valid s).data.takeWhile fun r => decide (r.key ≤ q')).length := by
            omega
          rw [hstop]
          rw [pyListSlice_eq _ _ _ (List.IsPrefix.length_le (List.takeWhile_prefix _)),
            ← List.drop_take, take_takeWhile_length, Nat.zero_add,
            takeWhile_notle_eq q ((make_valid s).data),
            @sorted_interval_filter q q' ((make_valid s).data) hsorted]
          simp only [inClosed_some_some]
      | none =>
          rw [except_bind_ok, except_pure_eq_ok]
          simp only [Except.ok.injEq]
          congr 1
          rw [pyListSlice_eq _ _ _ (le_refl _), ← List.drop_take, List.take_length,
            Nat.zero_add, takeWhile_notle_eq q ((make_valid s).data),
            drop_takeWhile_length, @sorted_dropWhile_lt q ((make_valid s).data) hsorted]
          apply List.filter_congr
          intro x _
          rw [inClosed_some_none, Bool.and_true]
  | none =>
      dsimp only
      rw [except_bind_ok]
      cases hi with
      | some q' =>
          have hex' : ∃ r ∈ (make_valid s).data, decide (r.key ≤ q') = true := by
            rcases hhi q' rfl with ⟨r, hr, hq⟩
            exact ⟨r, hr, decide_eq_true hq⟩
          obtain ⟨kk', hk', hlen1⟩ := first_true_keyItems_rev_le q'
            ((make_valid s).data) hsorted hex'
          dsimp only
          rw [hk', except_map_ok, except_bind_ok, except_pure_eq_ok]
          simp only [Except.ok.injEq]
          congr 1
          have hstop :
              ((make_valid s).data.takeWhile fun r => decide (r.key ≤ q')).length
              - 1 + 1
              = ((make_valid s).data.takeWhile fun r => decide (r.key ≤ q')).length := by
            omega
          rw [hstop]
          rw [pyListSlice_eq _ _ _ (List.IsPrefix.length_le (List.takeWhile_prefix _)),
            ← List.drop_take, take_takeWhile_length, List.drop_zero,
            @sorted_takeWhile_le q' ((make_valid s).data) hsorted]
          apply List.filter_congr
          intro x _
          rw [inClosed_none_some, Bool.true_and]
      | none =>
          dsimp only
          rw [except_bind_ok, except_pure_eq_ok]
          simp only [Except.ok.injEq]
          congr 1
          rw [pyListSlice_eq _ _ _ (le_refl _), ← List.drop_take, List.take_length,
            List.drop_zero, eq_comm]
          apply List.filter_eq_self.mpr
          intro x _
          rw [inClosed_none_none]

open SortedDict in
/-- C3, claim as stated, is false at unresolvable bounds: with keys
`[1, 2, 3, 4]`, the slice `S[5.0 : 6.0]` raises `StopIteration` (from
`_first_true`) instead of returning the empty collection of records with
key in `[5, 6]`. -/
theorem C3_counterexample :
    (getitem_fslice (SortedDict.init [⟨1, []⟩, ⟨2, []⟩, ⟨3, []⟩, ⟨4, []⟩])
        (some 5) (some 6) none).2 = .error .stopIteration ∧
    (readData (SortedDict.init [⟨1, []⟩, ⟨2, []⟩, ⟨3, []⟩, ⟨4, []⟩])).filter
        (fun r => inClosed (some 5) (some 6) r.key) = [] :=
  ⟨rfl, rfl⟩

open SortedDict in
/-- Witness for `C3_float_slice_closed_interval`: the spec's concrete
example `S[2.0 : 3.0]` on keys `[1, 2, 3, 4]`. -/
theorem C3_float_slice_closed_interval_witness :
    List.Sorted keyLE
      (readData (SortedDict.init [⟨1, []⟩, ⟨2, []⟩, ⟨3, []⟩, ⟨4, []⟩])) ∧
    (getitem_fslice (SortedDict.init [⟨1, []⟩, ⟨2, []⟩, ⟨3, []⟩, ⟨4, []⟩])
        (some 2) (some 3) none).2 =
      .ok (SortedDict.from_sorted
        ((readData (SortedDict.init [⟨1, []⟩, ⟨2, []⟩, ⟨3, []⟩, ⟨4, []⟩])).filter
          (fun r => inClosed (some 2) (some 3) r.key))) :=
  ⟨by decide,
    C3_float_slice_closed_interval _ (by decide) (some 2) (some 3)
      (by intro q hq; injection hq with hq; subst hq; decide)
      (by intro q hq; injection hq with hq; subst hq; decide)⟩

open SortedDict in
/-- C4 (amended): the single-item float lookup is **not** an exact-match
dictionary lookup: `S[k]` returns the singleton collection holding the first
record whose key is `≥ k` whenever one exists, and otherwise fails with
`StopIteration` (not `KeyError`). -/
theorem C4_float_lookup_first_ge (s : SortedDict)
    (_hsorted : List.Sorted keyLE (readData s)) (k : ℚ) :
    ((∃ r ∈ readData s, k ≤ r.key) →
      (getitem_float s k).2 =
        .ok (SortedDict.from_sorted
          (((readData s).dropWhile fun r => decide (r.key < k)).take 1))) ∧
    ((∀ r ∈ readData s, r.key < k) →
      (getitem_float s k).2 = .error .stopIteration) := by
  constructor
  · intro hex
    have hex' : ∃ r ∈ (make_valid s).data, decide (k ≤ r.key) = true := by
      rcases hex with ⟨r, hr, hq⟩
      exact ⟨r, hr, decide_eq_true hq⟩
    obtain ⟨kk, hk⟩ := first_true_keyItems_from (fun z => decide (k ≤ z))
      ((make_valid s).data) 0 hex'
    unfold getitem_float
    dsimp only
    rw [keyItems_eq_enumFrom, hk, except_map_ok]
    congr 1
    rw [Nat.zero_add, takeWhile_notle_eq k ((make_valid s).data),
      drop_takeWhile_length]
    rfl
  · intro hall
    unfold getitem_float
    dsimp only
    rw [keyItems_eq_enumFrom,
      first_true_eq_error _ _ ?_, except_map_error]
    intro x hx
    rcases List.mem_map.mp hx with ⟨⟨i, r⟩, hir, hxr⟩
    rcases List.mem_enumFrom hir with ⟨-, hlt, hget⟩
    simp only [Nat.zero_add] at hlt
    simp only [Nat.sub_zero] at hget
    have hr : r ∈ (make_valid s).data := by
      rw [hget]; exact List.getElem_mem hlt
    have := hall r hr
    rw [← hxr]
    simp only [decide_eq_false_iff_not, not_le]
    exact this

open SortedDict in
/-- C4, claim as stated, is false: with keys `[1, 2]`, the lookup `S[1.5]`
returns the record keyed `2.0` (first key `≥` the query) instead of raising
`KeyError` for the absent key. -/
theorem C4_counterexample :
    (getitem_float (SortedDict.init [⟨1, []⟩, ⟨2, []⟩]) (mkRat 3 2)).2 =
      .ok (SortedDict.from_sorted [⟨2, []⟩]) ∧
    (mkRat 3 2) ∉ readKeys (SortedDict.init [⟨1, []⟩, ⟨2, []⟩]) :=
  ⟨rfl, by decide⟩

open SortedDict in
/-- Witness for `C4_float_lookup_first_ge` at concrete inputs covering both
conjuncts: keys `[1, 2]`, queries `1.5` (hit) and `3` (miss). -/
theorem C4_float_lookup_first_ge_witness :
    List.Sorted keyLE (readData (SortedDict.init [⟨1, []⟩, ⟨2, []⟩])) ∧
    (∃ r ∈ readData (SortedDict.init [⟨1, []⟩, ⟨2, []⟩]), mkRat 3 2 ≤ r.key) ∧
    (getitem_float (SortedDict.init [⟨1, []⟩, ⟨2, []⟩]) (mkRat 3 2)).2 =
      .ok (SortedDict.from_sorted
        (((readData (SortedDict.init [⟨1, []⟩, ⟨2, []⟩])).dropWhile
            fun r => decide (r.key < mkRat 3 2)).take 1)) ∧
    (∀ r ∈ readData (SortedDict.init [⟨1, []⟩, ⟨2, []⟩]), r.key < (3 : ℚ)) ∧
    (getitem_float (SortedDict.init [⟨1, []⟩, ⟨2, []⟩]) 3).2 =
      .error .stopIteration :=
  ⟨by decide, by decide,
    (C4_float_lookup_first_ge (SortedDict.init [⟨1, []⟩, ⟨2, []⟩])
      (by decide) (mkRat 3 2)).1 (by decide),
    by decide,
    (C4_float_lookup_first_ge (SortedDict.init [⟨1, []⟩, ⟨2, []⟩])
      (by decide) 3).2 (by decide)⟩

open SortedDict in
/-- `_filter_transpose` succeeds on a batch of records that all declare the
attribute, producing the column of attribute values. -/
theorem mapM_getattr_ok (name : String) :
    ∀ (l : List Rec), (∀ r ∈ l, (r.getattr name).isSome) →
    (l.mapM (fun r => match r.getattr name with
      | some v => Except.ok v
      | none => (Except.error () : Except Unit PyVal)))
      = Except.ok (l.map (fun r => (r.getattr name).getD (.str ""))) := by
  intro l
  induction l with
  | nil => intro _; rfl
  | cons a t ih =>
      intro h
      rw [List.mapM_cons]
      rcases Option.isSome_iff_exists.mp (h a (List.mem_cons_self a t)) with ⟨v, hv⟩
      rw [hv]
      have hmt := ih (fun r hr => h r (List.mem_cons_of_mem a hr))
      rw [show (match some v with
          | some v => Except.ok v
          | none => (Except.error () : Except Unit PyVal)) = Except.ok v from rfl]
      rw [except_bind_ok, hmt, except_bind_ok, except_pure_eq_ok]
      simp [hv]

open SortedDict in
/-- C9 (amended): for a series whose records all declare attribute `name`,
the composed view access `view[name][i]` evaluates to the **singleton Python
list** `[v]` where `v` is the `name` attribute of the `i`-th record of the
sorted series (so the round trip holds only up to this one-element list
wrapper), and the view leaves the observable series unchanged (it only
triggers the deferred re-sort). -/
theorem C9_transpose_view_roundtrip (s : SortedDict) (name : String) (i : ℕ)
    (hattr : ∀ r ∈ readData s, (r.getattr name).isSome)
    (hi : i < (readData s).length) :
    ∃ r v,
      (readData s).get? i = some r ∧
      r.getattr name = some v ∧
      (view_getitem_str s name).2 =
        .ok [PyVal.list ((readData s).map
          (fun r => (r.getattr name).getD (.str "")))] ∧
      readData (view_getitem_str s name).1 = readData s ∧
      filterable_getitem_int
        [PyVal.list ((readData s).map
          (fun r => (r.getattr name).getD (.str "")))] i
        = .ok (.list [v]) := by
  have hget : (readData s).get? i = some ((readData s).get ⟨i, hi⟩) := by
    rw [List.get?_eq_getElem?, List.getElem?_eq_getElem hi]
    simp
  set r := (readData s).get ⟨i, hi⟩ with hr
  have hrmem : r ∈ readData s := List.get_mem _ _ hi
  rcases Option.isSome_iff_exists.mp (hattr r hrmem) with ⟨v, hv⟩
  refine ⟨r, v, hget, hv, ?_, ?_, ?_⟩
  · unfold view_getitem_str filter_transpose
    dsimp only
    rw [List.mapM_cons, mapM_getattr_ok name ((make_valid s).data) hattr]
    rfl
  · exact readData_make_valid s
  · unfold filterable_getitem_int
    rw [List.mapM_cons]
    have hcol : ((readData s).map
        (fun r => (r.getattr name).getD (.str ""))).get? i = some v := by
      rw [List.get?_eq_getElem?, List.getElem?_map]
      rw [show (readData s)[i]? = some r from by
        rw [← List.get?_eq_getElem?]; exact hget]
      simp [hv]
    rw [show pyIndex (PyVal.list ((readData s).map
        (fun r => (r.getattr name).getD (.str "")))) i = Except.ok v from by
      unfold pyIndex
      dsimp only
      rw [hcol]]
    rfl

open SortedDict in
/-- C9, claim as stated, is false: `view[name][i]` is the one-element Python
list `[v]`, not the bare attribute value `v` returned by
`series.get_by_index(i)[name]` — with attribute `v = 7.0` at index 0 the two
differ. -/
theorem C9_counterexample :
    (view_getitem_str
        (SortedDict.init [⟨2, [("v", .float 8)]⟩, ⟨1, [("v", .float 7)]⟩])
        "v").2
      = .ok [.list [.float 7, .float 8]] ∧
    filterable_getitem_int [.list [.float 7, .float 8]] 0
      = .ok (.list [.float 7]) ∧
    ((readData
        (SortedDict.init [⟨2, [("v", .float 8)]⟩, ⟨1, [("v", .float 7)]⟩])).get? 0).map
        (fun r => r.getattr "v") = some (some (.float 7)) ∧
    PyVal.list [.float 7] ≠ PyVal.float 7 :=
  ⟨rfl, rfl, rfl, by intro h; exact PyVal.noConfusion h⟩

open SortedDict in
/-- Witness for `C9_transpose_view_roundtrip` on a concrete two-record
series delivered out of order. -/
theorem C9_transpose_view_roundtrip_witness :
    (∀ r ∈ readData
        (SortedDict.init [⟨2, [("v", .float 8)]⟩, ⟨1, [("v", .float 7)]⟩]),
      (r.getattr "v").isSome) ∧
    0 < (readData
        (SortedDict.init [⟨2, [("v", .float 8)]⟩, ⟨1, [("v", .float 7)]⟩])).length ∧
    (∃ r v,
      (readData
        (SortedDict.init [⟨2, [("v", .float 8)]⟩, ⟨1, [("v", .float 7)]⟩])).get? 0
        = some r ∧
      r.getattr "v" = some v ∧
      (view_getitem_str
        (SortedDict.init [⟨2, [("v", .float 8)]⟩, ⟨1, [("v", .float 7)]⟩]) "v").2 =
        .ok [PyVal.list ((readData
          (SortedDict.init [⟨2, [("v", .float 8)]⟩, ⟨1, [("v", .float 7)]⟩])).map
          (fun r => (r.getattr "v").getD (.str "")))] ∧
      readData (view_getitem_str
        (SortedDict.init [⟨2, [("v", .float 8)]⟩, ⟨1, [("v", .float 7)]⟩]) "v").1
        = readData (SortedDict.init [⟨2, [("v", .float 8)]⟩, ⟨1, [("v", .float 7)]⟩]) ∧
      filterable_getitem_int
        [PyVal.list ((readData
          (SortedDict.init [⟨2, [("v", .float 8)]⟩, ⟨1, [("v", .float 7)]⟩])).map
          (fun r => (r.getattr "v").getD (.str "")))] 0
        = .ok (.list [v])) := by
  have hattr : ∀ r ∈ readData
      (SortedDict.init [⟨2, [("v", .float 8)]⟩, ⟨1, [("v", .float 7)]⟩]),
      (r.getattr "v").isSome := by
    intro r hr
    rcases List.mem_cons.mp hr with h | h
    · subst h; rfl
    · rcases List.mem_cons.mp h with h | h
      · subst h; rfl
      · cases h
  exact ⟨hattr, by decide,
    C9_transpose_view_roundtrip
      (SortedDict.init [⟨2, [("v", .float 8)]⟩, ⟨1, [("v", .float 7)]⟩]) "v" 0
      hattr (by decide)⟩

open SortedDict in
/-- Witness for `C2_duplicate_key_rejected` at a concrete duplicate key. -/
theorem C2_duplicate_key_rejected_witness :
    (5 : ℚ) ∈ keysList [⟨5, []⟩, ⟨9, []⟩] ∧
    (⟨5, []⟩ : Rec) ∈ [(⟨5, []⟩ : Rec)] ∧
    ((∃ idx r',
        (SortedDict.append (SortedDict.init [⟨5, []⟩, ⟨9, []⟩]) ⟨5, []⟩).2 =
          some (.nonuniqueAppend 5 idx) ∧
        (make_valid (SortedDict.init [⟨5, []⟩, ⟨9, []⟩])).data.get? idx = some r' ∧
        r'.key = 5 ∧
        readData (SortedDict.append (SortedDict.init [⟨5, []⟩, ⟨9, []⟩]) ⟨5, []⟩).1 =
          readData (SortedDict.init [⟨5, []⟩, ⟨9, []⟩])) ∧
      ((SortedDict.extend (SortedDict.init [⟨5, []⟩, ⟨9, []⟩]) [⟨5, []⟩]).2 =
          some .nonuniqueInCollection ∧
        readData (SortedDict.extend (SortedDict.init [⟨5, []⟩, ⟨9, []⟩]) [⟨5, []⟩]).1 =
          readData (SortedDict.init [⟨5, []⟩, ⟨9, []⟩])) ∧
      ((SortedDict.concat (SortedDict.init [⟨5, []⟩, ⟨9, []⟩]) [⟨5, []⟩]).2 =
          Except.error .nonuniqueInCollection ∧
        readData (SortedDict.concat (SortedDict.init [⟨5, []⟩, ⟨9, []⟩]) [⟨5, []⟩]).1 =
          readData (SortedDict.init [⟨5, []⟩, ⟨9, []⟩]))) :=
  ⟨by decide, List.mem_singleton.mpr rfl,
    C2_duplicate_key_rejected (SortedDict.init [⟨5, []⟩, ⟨9, []⟩]) ⟨5, []⟩
      [⟨5, []⟩] (by decide) (List.mem_singleton.mpr rfl)⟩

namespace Geometry

/-- The six face names are pairwise distinct. -/
theorem names_inj : ∀ a < 6, ∀ b < 6, names.getD a "" = names.getD b "" → a = b := by
  decide

/-- Characterization of a face lookup in the dictionary built by
`_get_neighbors` from one (truncated) tree row enumerated from `n`. -/
theorem lookup_neighbors_aux :
    ∀ (m : List ℤ) (n : ℕ), n + m.length ≤ 6 → ∀ dn : ℕ, dn < 6 →
    ((m.enumFrom n).filterMap
        (fun p => if p.2 ≥ 0 then some (names.getD p.1 "", p.2) else none)).lookup
      (names.getD dn "")
    = if n ≤ dn ∧ dn < n + m.length
      then (m.get? (dn - n)).bind (fun v => if 0 ≤ v then some v else none)
      else none := by
  intro m
  induction m with
  | nil =>
      intro n _ dn _
      rw [if_neg (by simp only [List.length_nil]; omega)]
      rfl
  | cons v t ih =>
      intro n hn dn hdn
      have hn' : (n + 1) + t.length ≤ 6 := by
        simp only [List.length_cons] at hn
        omega
      rw [List.enumFrom_cons, List.filterMap_cons]
      by_cases hv : v ≥ 0
      · rw [if_pos hv]
        rw [List.lookup_cons]
        by_cases hdneq : dn = n
        · subst hdneq
          have hbeq : (names.getD dn "" == names.getD dn "") = true := by simp
          rw [hbeq]
          rw [if_pos (by simp only [List.length_cons]; omega)]
          simp only [Nat.sub_self, List.get?_eq_getElem?, List.getElem?_cons_zero,
            Option.some_bind]
          rw [if_pos (by omega)]
        · have hne : (names.getD dn "" == names.getD n "") = false := by
            rw [beq_eq_false_iff_ne]
            intro heq
            exact hdneq (names_inj dn hdn n (by omega) heq)
          rw [hne, ih (n + 1) hn' dn hdn]
          by_cases hrange : n ≤ dn ∧ dn < n + (v :: t).length
          · have hrange' : n + 1 ≤ dn ∧ dn < n + 1 + t.length := by
              simp only [List.length_cons] at hrange
              omega
            rw [if_pos hrange', if_pos hrange]
            have hsub : dn - n = (dn - (n + 1)) + 1 := by omega
            rw [hsub]
            rfl
          · have hrange' : ¬ (n + 1 ≤ dn ∧ dn < n + 1 + t.length) := by
              simp only [List.length_cons] at hrange
              omega
            rw [if_neg hrange', if_neg hrange]
      · rw [if_neg hv]
        rw [ih (n + 1) hn' dn hdn]
        by_cases hdneq : dn = n
        · subst hdneq
          rw [if_neg (by omega), if_pos (by simp only [List.length_cons]; omega)]
          simp only [Nat.sub_self, List.get?_eq_getElem?, List.getElem?_cons_zero,
            Option.some_bind]
          rw [if_neg (by omega)]
        · by_cases hrange : n ≤ dn ∧ dn < n + (v :: t).length
          · have hrange' : n + 1 ≤ dn ∧ dn < n + 1 + t.length := by
              simp only [List.length_cons] at hrange
              omega
            rw [if_pos hrange', if_pos hrange]
            have hsub : dn - n = (dn - (n + 1)) + 1 := by omega
            rw [hsub]
            rfl
          · have hrange' : ¬ (n + 1 ≤ dn ∧ dn < n + 1 + t.length) := by
              simp only [List.length_cons] at hrange
              omega
            rw [if_neg hrange', if_neg hrange]

end Geometry

open Geometry in
/-- C6: `_get_neighbors` builds, for every block `b` and direction slot
`dn` (ordered `x-`, `x+`, `y-`, `y+`, `z-`, `z+`, named `left`, `right`,
`front`, `back`, `up`, `down`), a face entry exactly when `dn < 2*dim` and
the slot value is `≥ 0`, with that value as the neighbor id; negative
sentinel slots are omitted, and in 2-D no `up`/`down` faces are
constructed. -/
theorem C6_adjacency_construction (tree : List (List ℤ)) (dim : ℕ)
    (hdim : dim = 2 ∨ dim = 3) (b : ℕ) (dn : ℕ) (hdn : dn < 6)
    (fmRow : FaceMap) (hfm : (get_neighbors tree dim).get? b = some fmRow)
    (row : List ℤ) (hrow : tree.get? b = some row) :
    (lookupFace fmRow (names.getD dn "")
      = if dn < 2 * dim ∧ dn < row.length
        then (row.get? dn).bind (fun v => if 0 ≤ v then some v else none)
        else none) ∧
    (dim = 2 → 4 ≤ dn → lookupFace fmRow (names.getD dn "") = none) := by
  have hfm' : fmRow = (row.take (2 * dim)).enum.filterMap
      (fun p => if p.2 ≥ 0 then some (names.getD p.1 "", p.2) else none) := by
    unfold get_neighbors at hfm
    rw [List.get?_map, hrow] at hfm
    exact (Option.some_inj.mp hfm).symm
  have hdim6 : 2 * dim ≤ 6 := by rcases hdim with h | h <;> omega
  have hlen : 0 + (row.take (2 * dim)).length ≤ 6 := by
    rw [List.length_take]
    omega
  have heq := lookup_neighbors_aux (row.take (2 * dim)) 0 hlen dn hdn
  have henum : (row.take (2 * dim)).enumFrom 0 = (row.take (2 * dim)).enum := rfl
  rw [henum] at heq
  constructor
  · unfold lookupFace
    rw [hfm', heq]
    by_cases hcond : dn < 2 * dim ∧ dn < row.length
    · rw [if_pos (by
        constructor
        · omega
        · rw [List.length_take]
          omega), if_pos hcond]
      simp only [Nat.sub_zero, List.get?_eq_getElem?, List.getElem?_take]
      rw [if_pos hcond.1]
    · rw [if_neg (by
        rw [List.length_take]
        omega), if_neg hcond]
  · intro h2 h4
    unfold lookupFace
    rw [hfm', heq]
    rw [if_neg (by
      rw [List.length_take]
      omega)]

open Geometry in
/-- Witness for `C6_adjacency_construction` on a concrete 2-D tree row with
a sentinel and a neighbor. -/
theorem C6_adjacency_construction_witness :
    ((2 : ℕ) = 2 ∨ (2 : ℕ) = 3) ∧
    ((get_neighbors [[-1, 2, -1, 1, -1, -1]] 2).get? 0
      = some [("right", 2), ("back", 1)]) ∧
    (([(-1 : ℤ), 2, -1, 1, -1, -1] : List ℤ).get? 1
      = some 2) ∧
    (lookupFace [("right", 2), ("back", 1)] (names.getD 1 "")
        = if 1 < 2 * 2 ∧ 1 < ([(-1 : ℤ), 2, -1, 1, -1, -1] : List ℤ).length
          then (([(-1 : ℤ), 2, -1, 1, -1, -1] : List ℤ).get? 1).bind
            (fun v => if 0 ≤ v then some v else none)
          else none) ∧
    ((2 : ℕ) = 2 → 4 ≤ 4 →
      lookupFace [("right", 2), ("back", 1)] (names.getD 4 "") = none) :=
  ⟨Or.inl rfl, rfl, rfl,
    (C6_adjacency_construction [[-1, 2, -1, 1, -1, -1]] 2 (Or.inl rfl) 0 1
      (by decide) [("right", 2), ("back", 1)] rfl [-1, 2, -1, 1, -1, -1] rfl).1,
    (C6_adjacency_construction [[-1, 2, -1, 1, -1, -1]] 2 (Or.inl rfl) 0 4
      (by decide) [("right", 2), ("back", 1)] rfl [-1, 2, -1, 1, -1, -1] rfl).2⟩

open Geometry in
/-- C7: the claim is what the spec intends, but the code's temperature
Dirichlet fill cannot produce it.  The mirror slice written in
`_bound_cells_from_data_temp` is `-g-1 : -2*g+1 : -1`, which resolves to
`g - 2` source planes, while the destination `-g:` holds `g` guard planes.
At the shipped configuration (`blk_guards = 2`, so `g = 1`), with a single
block whose right face is a physical boundary and
`txr_boundary_type = dirichlet_ht`, the assignment is a numpy broadcast
error (`0` source planes into `1` destination plane) rather than
`2*V - mirror(interior)`. -/
theorem C7_temp_dirichlet_broadcast_error :
    bound_cells_from_data_temp ⟨4, 4, 4, 1, 2⟩ (fun _ => "dirichlet_ht")
      (fun _ => 10) (fun _ _ _ _ => 0) [[]] (fun _ _ _ _ => 1)
      = Except.error () ∧
    (SortedDict.sliceIndices 4 (some (-1)) none 1).length = 1 ∧
    (SortedDict.sliceIndices 4 (some (-2)) (some (-1)) (-1)).length = 0 :=
  ⟨rfl, rfl, rfl⟩

namespace Geometry

theorem lookup_mem_keys {l : List (ℤ × ℤ)} {a b : ℤ} (h : l.lookup a = some b) :
    (a, b) ∈ l := by
  induction l with
  | nil => cases h
  | cons p t ih =>
      obtain ⟨x, y⟩ := p
      rw [List.lookup_cons] at h
      by_cases hax : (a == x) = true
      · rw [hax] at h
        cases h
        simp [beq_iff_eq.mp hax]
      · rw [Bool.not_eq_true] at hax
        rw [hax] at h
        exact List.mem_cons_of_mem _ (ih h)

/-- A successful `broadcastPair` only pairs destination indices from the
destination slice. -/
theorem broadcastPair_fst {destIdx srcIdx : List ℤ} {pairs : List (ℤ × ℤ)}
    (h : broadcastPair destIdx srcIdx = .ok pairs) :
    ∀ p ∈ pairs, p.1 ∈ destIdx := by
  unfold broadcastPair at h
  by_cases hlen : srcIdx.length = destIdx.length
  · rw [if_pos hlen] at h
    cases h
    intro p hp
    obtain ⟨a, b⟩ := p
    exact (List.of_mem_zip hp).1
  · rw [if_neg hlen] at h
    cases hsrc : srcIdx with
    | nil => rw [hsrc] at h; cases h
    | cons s t =>
        cases t with
        | nil =>
            rw [hsrc] at h
            simp only at h
            cases h
            intro p hp
            rcases List.mem_map.mp hp with ⟨i, hi, hpi⟩
            rw [← hpi]
            exact hi
        | cons s2 t2 => rw [hsrc] at h; cases h

/-- A monadic fold whose every successful step leaves cell
`(b, k, j, i)` unchanged leaves it unchanged overall. -/
theorem foldlM_agrees {α : Type} (l : List α) (f : D → α → Except Unit D)
    (b : ℕ) (k j i : ℤ)
    (hstep : ∀ d d2 a, a ∈ l → f d a = .ok d2 → d2 b k j i = d b k j i) :
    ∀ d out, l.foldlM f d = .ok out → out b k j i = d b k j i := by
  induction l with
  | nil =>
      intro d out h
      rw [List.foldlM_nil] at h
      cases h
      rfl
  | cons a t ih =>
      intro d out h
      rw [List.foldlM_cons] at h
      cases hfa : f d a with
      | error e => rw [hfa] at h; cases h
      | ok d1 =>
          rw [hfa, SortedDict.except_bind_ok] at h
          rw [ih (fun d d2 a ha => hstep d d2 a (List.mem_cons_of_mem _ ha)) d1 out h]
          exact hstep d d1 a (List.mem_cons_self a t) hfa

/-- `_bound_cells_from_data_temp` on one block writes only its own
right-face guard slab (tangentially interior, destination indices of the
`-g:` slice), and only when the block lacks a right neighbor. -/
theorem tempBlock_frame (geo : Geom) (bc : String → String) (bv : String → ℚ)
    (x : D) (blk : ℕ) (fm : FaceMap) (d d2 : D)
    (hrun : tempBlock geo bc bv x blk fm d = .ok d2)
    (b : ℕ) (k j i : ℤ)
    (hnot : b ≠ blk ∨ ¬ (lookupFace fm "right" = none ∧
      (intB geo.Z geo.g k && intB geo.Y geo.g j) = true ∧
      i ∈ SortedDict.sliceIndices geo.X (some (-geo.g)) none 1)) :
    d2 b k j i = d b k j i := by
  unfold tempBlock at hrun
  by_cases hface : (lookupFace fm "right").isSome = true
  · rw [if_pos hface] at hrun
    cases hrun
    rfl
  · rw [if_neg hface] at hrun
    have hnone : lookupFace fm "right" = none := Option.not_isSome_iff_eq_none.mp hface
    by_cases hcond1 : bc "right" ∈ ["dirichlet_ht", "DIRICHLET_HT"]
    · rw [if_pos hcond1] at hrun
      cases hbp : broadcastPair (SortedDict.sliceIndices geo.X (some (-geo.g)) none 1)
          (SortedDict.sliceIndices geo.X (some (-geo.g - 1))
            (some (-2 * geo.g + 1)) (-1)) with
      | error e => rw [hbp] at hrun; cases hrun
      | ok pairs =>
          rw [hbp, SortedDict.except_bind_ok, SortedDict.except_pure_eq_ok] at hrun
          have hN : ¬ (b = blk ∧ (intB geo.Z geo.g k && intB geo.Y geo.g j) = true ∧
              (pairs.lookup i).isSome = true) := by
            intro hcond
            obtain ⟨hb, htang, hlook⟩ := hcond
            rcases hnot with hnb | hnc
            · exact hnb hb
            · apply hnc
              refine ⟨hnone, htang, ?_⟩
              rcases Option.isSome_iff_exists.mp hlook with ⟨v, hv⟩
              exact broadcastPair_fst hbp (i, v) (lookup_mem_keys hv)
          cases hrun
          exact if_neg hN
    · rw [if_neg hcond1] at hrun
      by_cases hcond2 : bc "right" ∈ ["neumann_ht", "neumann_ht"]
      · rw [if_pos hcond2] at hrun
        cases hbp : broadcastPair (SortedDict.sliceIndices geo.X (some (-geo.g)) none 1)
            (SortedDict.sliceIndices geo.X (some (-geo.g - 1))
              (some (-2 * geo.g + 1)) (-1)) with
        | error e => rw [hbp] at hrun; cases hrun
        | ok pairs =>
            rw [hbp, SortedDict.except_bind_ok, SortedDict.except_pure_eq_ok] at hrun
            have hN : ¬ (b = blk ∧ (intB geo.Z geo.g k && intB geo.Y geo.g j) = true ∧
                (pairs.lookup i).isSome = true) := by
              intro hcond
              obtain ⟨hb, htang, hlook⟩ := hcond
              rcases hnot with hnb | hnc
              · exact hnb hb
              · apply hnc
                refine ⟨hnone, htang, ?_⟩
                rcases Option.isSome_iff_exists.mp hlook with ⟨v, hv⟩
                exact broadcastPair_fst hbp (i, v) (lookup_mem_keys hv)
            cases hrun
            exact if_neg hN
      · rw [if_neg hcond2] at hrun
        cases hrun
        rfl

end Geometry

open Geometry in
/-- C10: the temperature physical-boundary fill writes only the right-face
guard slabs (tangentially interior cells of the `-g:` destination slice) of
blocks whose adjacency entry lacks a right neighbor; every other cell —
in particular every left/front/back/up/down guard cell, whatever boundary
conditions are declared there — retains its prior contents. -/
theorem C10_temp_fill_writes_only_right_guards (geo : Geom)
    (bc : String → String) (bv : String → ℚ) (x : D) (struct : List FaceMap)
    (d out : D)
    (hrun : bound_cells_from_data_temp geo bc bv x struct d = .ok out)
    (b : ℕ) (k j i : ℤ)
    (hnot : ∀ fm, struct.get? b = some fm →
      ¬ (lookupFace fm "right" = none ∧
        (intB geo.Z geo.g k && intB geo.Y geo.g j) = true ∧
        i ∈ SortedDict.sliceIndices geo.X (some (-geo.g)) none 1)) :
    out b k j i = d b k j i := by
  unfold bound_cells_from_data_temp at hrun
  refine foldlM_agrees struct.enum _ b k j i ?_ d out hrun
  intro d d2 a ha hstep
  obtain ⟨blk, fm⟩ := a
  refine tempBlock_frame geo bc bv x blk fm d d2 hstep b k j i ?_
  by_cases hb : b = blk
  · subst hb
    rcases List.mem_enumFrom ha with ⟨-, hlt, hget⟩
    simp only [Nat.zero_add] at hlt
    simp only [Nat.sub_zero] at hget
    refine Or.inr (hnot fm ?_)
    rw [List.get?_eq_getElem?, List.getElem?_eq_getElem hlt, hget]
  · exact Or.inl hb

open Geometry in
/-- Witness for `C10_temp_fill_writes_only_right_guards`: a completing run
leaves a left-guard cell untouched. -/
theorem C10_temp_fill_writes_only_right_guards_witness :
    bound_cells_from_data_temp ⟨8, 8, 8, 3, 2⟩ (fun _ => "dirichlet_ht")
      (fun _ => 10) (fun _ _ _ _ => 0) [[]] (fun _ _ _ _ => 1)
      = Except.ok tempOutWitness ∧
    (∀ fm, ([[]] : List FaceMap).get? 0 = some fm →
      ¬ (lookupFace fm "right" = none ∧
        (intB 8 3 3 && intB 8 3 3) = true ∧
        (0 : ℤ) ∈ SortedDict.sliceIndices 8 (some (-3)) none 1)) ∧
    tempOutWitness 0 3 3 0 = 1 := by
  refine ⟨rfl, ?_, ?_⟩
  · intro fm hfm
    injection hfm with hfm
    subst hfm
    decide
  · have := C10_temp_fill_writes_only_right_guards ⟨8, 8, 8, 3, 2⟩
      (fun _ => "dirichlet_ht") (fun _ => 10) (fun _ _ _ _ => 0) [[]]
      (fun _ _ _ _ => 1) tempOutWitness rfl 0 3 3 0
      (by
        intro fm hfm
        injection hfm with hfm
        subst hfm
        decide)
    exact this

namespace Geometry

/-- Membership transfers along a list inclusion. -/
theorem mem_of_forall_mem {c : String} {l L : List String} (hm : c ∈ l)
    (hl : ∀ x ∈ l, x ∈ L) : c ∈ L := hl c hm

/-- A masked assignment leaves a cell outside the mask unchanged. -/
theorem writeWhere_pred_frame (blk : ℕ) (p : ℤ → ℤ → ℤ → Bool)
    (v : D → ℤ → ℤ → ℤ → ℚ) (d : D) (b : ℕ) (k j i : ℤ)
    (h : p k j i = false) : writeWhere blk p v d b k j i = d b k j i := by
  unfold writeWhere
  rw [if_neg]
  rintro ⟨_, hp⟩
  rw [h] at hp
  exact Bool.false_ne_true hp

/-- A three-way conjunction with a false first component is false. -/
theorem and3_false_left {A B C : Bool} (h : A = false) : (A && B && C) = false := by
  rw [h]
  rfl

/-- A three-way conjunction with a false middle component is false. -/
theorem and3_false_mid {A B C : Bool} (h : B = false) : (A && B && C) = false := by
  rw [h]
  cases A <;> rfl

/-- A three-way conjunction with a false last component is false. -/
theorem and3_false_right {A B C : Bool} (h : C = false) : (A && B && C) = false := by
  rw [h]
  cases A <;> cases B <;> rfl

/-- Falsity of a three-way conjunction transfers to a smaller last component. -/
theorem and3_false_mono {A B C C' : Bool} (h : (A && B && C) = false)
    (himp : C' = true → C = true) : (A && B && C') = false := by
  cases A <;> cases B <;> cases C <;> cases C' <;> simp_all

/-- Falsity of a three-way conjunction transfers to a smaller middle component. -/
theorem and3_false_mono_mid {A B B' C : Bool} (h : (A && B && C) = false)
    (himp : B' = true → B = true) : (A && B' && C) = false := by
  cases A <;> cases B <;> cases B' <;> cases C <;> simp_all

/-- Falsity of a three-way conjunction transfers to a smaller first component. -/
theorem and3_false_mono_left {A A' B C : Bool} (h : (A && B && C) = false)
    (himp : A' = true → A = true) : (A' && B && C) = false := by
  cases A <;> cases A' <;> cases B <;> cases C <;> simp_all

/-- An interior index is not in the high guard range. -/
theorem intB_hiB_conflict {s g x : ℤ} (h : intB s g x = true) : hiB s g x = false := by
  simp only [intB, Bool.and_eq_true, decide_eq_true_eq] at h
  simp only [hiB]
  rw [decide_eq_false (by omega : ¬ (s - g ≤ x)), Bool.false_and]

/-- An interior index is not in the low guard range. -/
theorem intB_loB_conflict {s g x : ℤ} (h : intB s g x = true) : loB g x = false := by
  simp only [intB, Bool.and_eq_true, decide_eq_true_eq] at h
  simp only [loB]
  rw [decide_eq_false (by omega : ¬ (x < g)), Bool.and_false]

/-- With at least `2g` cells per axis, a high-guard index is not low-guard. -/
theorem hiB_loB_conflict {s g x : ℤ} (h2 : 2 * g ≤ s) (h : hiB s g x = true) :
    loB g x = false := by
  simp only [hiB, Bool.and_eq_true, decide_eq_true_eq] at h
  simp only [loB]
  rw [decide_eq_false (by omega : ¬ (x < g)), Bool.and_false]

/-- With at least `2g` cells per axis, a low-guard index is not high-guard. -/
theorem loB_hiB_conflict {s g x : ℤ} (h2 : 2 * g ≤ s) (h : loB g x = true) :
    hiB s g x = false := by
  simp only [loB, Bool.and_eq_true, decide_eq_true_eq] at h
  simp only [hiB]
  rw [decide_eq_false (by omega : ¬ (s - g ≤ x)), Bool.false_and]

/-- A high-guard index is not interior. -/
theorem hiB_intB_conflict {s g x : ℤ} (h : hiB s g x = true) : intB s g x = false := by
  simp only [hiB, Bool.and_eq_true, decide_eq_true_eq] at h
  simp only [intB]
  rw [decide_eq_false (by omega : ¬ (x < s - g)), Bool.and_false]

/-- A low-guard index is not interior. -/
theorem loB_intB_conflict {s g x : ℤ} (h : loB g x = true) : intB s g x = false := by
  simp only [loB, Bool.and_eq_true, decide_eq_true_eq] at h
  simp only [intB]
  rw [decide_eq_false (by omega : ¬ (g ≤ x)), Bool.false_and]

/-- The shrunk low range `:g-1` is contained in the low range `:g`. -/
theorem loB1_imp_loB {g x : ℤ} (h : loB1 g x = true) : loB g x = true := by
  simp only [loB1, Bool.and_eq_true, decide_eq_true_eq] at h
  simp only [loB, Bool.and_eq_true, decide_eq_true_eq]
  exact ⟨h.1, by omega⟩

/-- A pure left fold whose steps all preserve a cell preserves that cell. -/
theorem foldl_agrees {α : Type} : ∀ (l : List α) (f : D → α → D) (d : D)
    (b : ℕ) (k j i : ℤ),
    (∀ d a, a ∈ l → f d a b k j i = d b k j i) →
    l.foldl f d b k j i = d b k j i := by
  intro l
  induction l with
  | nil => intro f d b k j i _; rfl
  | cons a t ih =>
      intro f d b k j i h
      rw [List.foldl_cons,
        ih f (f d a) b k j i (fun d' a' ha' => h d' a' (List.mem_cons_of_mem a ha'))]
      exact h d a (List.mem_cons_self a t)

/-- `velcBlock` is the composition of the six per-face sections, the
z-direction pair only under `grd_dim == 3`. -/
theorem velcBlock_eq (geo : Geom) (bc : String → String) (field : String)
    (blk : ℕ) (fm : FaceMap) (d : D) :
    velcBlock geo bc field blk fm d =
      (if geo.dim = 3 then
        velcWriteDown geo bc field blk fm (velcWriteUp geo bc field blk fm
          (velcWriteBack geo bc field blk fm (velcWriteFront geo bc field blk fm
            (velcWriteLeft geo bc field blk fm
              (velcWriteRight geo bc field blk fm d)))))
      else
        velcWriteBack geo bc field blk fm (velcWriteFront geo bc field blk fm
          (velcWriteLeft geo bc field blk fm
            (velcWriteRight geo bc field blk fm d)))) := rfl

/-- An unrecognized right boundary-condition string makes the right section
a no-op. -/
theorem velcWriteRight_skip (geo : Geom) (bc : String → String) (field : String)
    (blk : ℕ) (fm : FaceMap) (d : D) (h : bc "right" ∉ recognizedVelcConds) :
    velcWriteRight geo bc field blk fm d = d := by
  unfold velcWriteRight
  split_ifs <;>
    first
      | rfl
      | exact absurd (mem_of_forall_mem (by assumption) (by decide)) h

/-- An unrecognized left boundary-condition string makes the left section
a no-op. -/
theorem velcWriteLeft_skip (geo : Geom) (bc : String → String) (field : String)
    (blk : ℕ) (fm : FaceMap) (d : D) (h : bc "left" ∉ recognizedVelcConds) :
    velcWriteLeft geo bc field blk fm d = d := by
  unfold velcWriteLeft
  split_ifs <;>
    first
      | rfl
      | exact absurd (mem_of_forall_mem (by assumption) (by decide)) h

/-- An unrecognized front boundary-condition string makes the front section
a no-op. -/
theorem velcWriteFront_skip (geo : Geom) (bc : String → String) (field : String)
    (blk : ℕ) (fm : FaceMap) (d : D) (h : bc "front" ∉ recognizedVelcConds) :
    velcWriteFront geo bc field blk fm d = d := by
  unfold velcWriteFront
  split_ifs <;>
    first
      | rfl
      | exact absurd (mem_of_forall_mem (by assumption) (by decide)) h

/-- An unrecognized back boundary-condition string makes the back section
a no-op. -/
theorem velcWriteBack_skip (geo : Geom) (bc : String → String) (field : String)
    (blk : ℕ) (fm : FaceMap) (d : D) (h : bc "back" ∉ recognizedVelcConds) :
    velcWriteBack geo bc field blk fm d = d := by
  unfold velcWriteBack
  split_ifs <;>
    first
      | rfl
      | exact absurd (mem_of_forall_mem (by assumption) (by decide)) h

/-- An unrecognized up boundary-condition string makes the up section
a no-op. -/
theorem velcWriteUp_skip (geo : Geom) (bc : String → String) (field : String)
    (blk : ℕ) (fm : FaceMap) (d : D) (h : bc "up" ∉ recognizedVelcConds) :
    velcWriteUp geo bc field blk fm d = d := by
  unfold velcWriteUp
  split_ifs <;>
    first
      | rfl
      | exact absurd (mem_of_forall_mem (by assumption) (by decide)) h

/-- An unrecognized down boundary-condition string makes the down section
a no-op. -/
theorem velcWriteDown_skip (geo : Geom) (bc : String → String) (field : String)
    (blk : ℕ) (fm : FaceMap) (d : D) (h : bc "down" ∉ recognizedVelcConds) :
    velcWriteDown geo bc field blk fm d = d := by
  unfold velcWriteDown
  split_ifs <;>
    first
      | rfl
      | exact absurd (mem_of_forall_mem (by assumption) (by decide)) h

/-- The right section leaves every cell outside its guard box unchanged. -/
theorem velcWriteRight_frame (geo : Geom) (bc : String → String) (field : String)
    (blk : ℕ) (fm : FaceMap) (d : D) (b : ℕ) (k j i : ℤ)
    (hp : (intB geo.Z geo.g k && intB geo.Y geo.g j && hiB geo.X geo.g i) = false) :
    velcWriteRight geo bc field blk fm d b k j i = d b k j i := by
  unfold velcWriteRight
  split_ifs <;>
    first
      | rfl
      | exact writeWhere_pred_frame blk _ _ d b k j i hp

/-- The left section leaves every cell outside its guard box unchanged. -/
theorem velcWriteLeft_frame (geo : Geom) (bc : String → String) (field : String)
    (blk : ℕ) (fm : FaceMap) (d : D) (b : ℕ) (k j i : ℤ)
    (hp : (intB geo.Z geo.g k && intB geo.Y geo.g j && loB geo.g i) = false) :
    velcWriteLeft geo bc field blk fm d b k j i = d b k j i := by
  unfold velcWriteLeft
  split_ifs <;>
    first
      | rfl
      | exact writeWhere_pred_frame blk _ _ d b k j i hp
      | exact writeWhere_pred_frame blk _ _ d b k j i (and3_false_mono hp loB1_imp_loB)

/-- The front section leaves every cell outside its guard box unchanged. -/
theorem velcWriteFront_frame (geo : Geom) (bc : String → String) (field : String)
    (blk : ℕ) (fm : FaceMap) (d : D) (b : ℕ) (k j i : ℤ)
    (hp : (intB geo.Z geo.g k && hiB geo.Y geo.g j && intB geo.X geo.g i) = false) :
    velcWriteFront geo bc field blk fm d b k j i = d b k j i := by
  unfold velcWriteFront
  split_ifs <;>
    first
      | rfl
      | exact writeWhere_pred_frame blk _ _ d b k j i hp

/-- The back section leaves every cell outside its guard box unchanged. -/
theorem velcWriteBack_frame (geo : Geom) (bc : String → String) (field : String)
    (blk : ℕ) (fm : FaceMap) (d : D) (b : ℕ) (k j i : ℤ)
    (hp : (intB geo.Z geo.g k && loB geo.g j && intB geo.X geo.g i) = false) :
    velcWriteBack geo bc field blk fm d b k j i = d b k j i := by
  unfold velcWriteBack
  split_ifs <;>
    first
      | rfl
      | exact writeWhere_pred_frame blk _ _ d b k j i hp
      | exact writeWhere_pred_frame blk _ _ d b k j i
          (and3_false_mono_mid hp loB1_imp_loB)

/-- The up section leaves every cell outside its guard box unchanged. -/
theorem velcWriteUp_frame (geo : Geom) (bc : String → String) (field : String)
    (blk : ℕ) (fm : FaceMap) (d : D) (b : ℕ) (k j i : ℤ)
    (hp : (hiB geo.Z geo.g k && intB geo.Y geo.g j && intB geo.X geo.g i) = false) :
    velcWriteUp geo bc field blk fm d b k j i = d b k j i := by
  unfold velcWriteUp
  split_ifs <;>
    first
      | rfl
      | exact writeWhere_pred_frame blk _ _ d b k j i hp

/-- The down section leaves every cell outside its guard box unchanged. -/
theorem velcWriteDown_frame (geo : Geom) (bc : String → String) (field : String)
    (blk : ℕ) (fm : FaceMap) (d : D) (b : ℕ) (k j i : ℤ)
    (hp : (loB geo.g k && intB geo.Y geo.g j && intB geo.X geo.g i) = false) :
    velcWriteDown geo bc field blk fm d b k j i = d b k j i := by
  unfold velcWriteDown
  split_ifs <;>
    first
      | rfl
      | exact writeWhere_pred_frame blk _ _ d b k j i hp
      | exact writeWhere_pred_frame blk _ _ d b k j i
          (and3_false_mono_left hp loB1_imp_loB)

/-- If a face's declared boundary-condition string is unrecognized, one pass
of `velcBlock` leaves that face's guard box unchanged (the other faces write
only their own, disjoint boxes). -/
theorem velcBlock_unrecognized_frame (geo : Geom) (bc : String → String)
    (field : String) (blk : ℕ) (fm : FaceMap) (d : D) (F : String)
    (rz ry rx : Rng) (b : ℕ) (k j i : ℤ)
    (hF : faceRngs F = some (rz, ry, rx))
    (hcond : bc F ∉ recognizedVelcConds)
    (hX : 2 * geo.g ≤ geo.X) (hY : 2 * geo.g ≤ geo.Y) (hZ : 2 * geo.g ≤ geo.Z)
    (hmem : (rz.mem geo.Z geo.g k && ry.mem geo.Y geo.g j
      && rx.mem geo.X geo.g i) = true) :
    velcBlock geo bc field blk fm d b k j i = d b k j i := by
  rw [velcBlock_eq]
  unfold faceRngs at hF
  split_ifs at hF with c1 c2 c3 c4 c5 c6
  · subst c1
    simp only [Option.some.injEq, Prod.mk.injEq] at hF
    obtain ⟨rfl, rfl, rfl⟩ := hF
    simp only [Rng.mem, Bool.and_eq_true] at hmem
    obtain ⟨⟨hk, hj⟩, hi⟩ := hmem
    by_cases hdim : geo.dim = 3
    · rw [if_pos hdim,
        velcWriteDown_frame geo bc field blk fm _ b k j i
          (and3_false_left (intB_loB_conflict hk)),
        velcWriteUp_frame geo bc field blk fm _ b k j i
          (and3_false_left (intB_hiB_conflict hk)),
        velcWriteBack_frame geo bc field blk fm _ b k j i
          (and3_false_mid (intB_loB_conflict hj)),
        velcWriteFront_frame geo bc field blk fm _ b k j i
          (and3_false_mid (intB_hiB_conflict hj)),
        velcWriteLeft_skip geo bc field blk fm _ hcond,
        velcWriteRight_frame geo bc field blk fm d b k j i
          (and3_false_right (loB_hiB_conflict hX hi))]
    · rw [if_neg hdim,
        velcWriteBack_frame geo bc field blk fm _ b k j i
          (and3_false_mid (intB_loB_conflict hj)),
        velcWriteFront_frame geo bc field blk fm _ b k j i
          (and3_false_mid (intB_hiB_conflict hj)),
        velcWriteLeft_skip geo bc field blk fm _ hcond,
        velcWriteRight_frame geo bc field blk fm d b k j i
          (and3_false_right (loB_hiB_conflict hX hi))]
  · subst c2
    simp only [Option.some.injEq, Prod.mk.injEq] at hF
    obtain ⟨rfl, rfl, rfl⟩ := hF
    simp only [Rng.mem, Bool.and_eq_true] at hmem
    obtain ⟨⟨hk, hj⟩, hi⟩ := hmem
    by_cases hdim : geo.dim = 3
    · rw [if_pos hdim,
        velcWriteDown_frame geo bc field blk fm _ b k j i
          (and3_false_left (intB_loB_conflict hk)),
        velcWriteUp_frame geo bc field blk fm _ b k j i
          (and3_false_left (intB_hiB_conflict hk)),
        velcWriteBack_frame geo bc field blk fm _ b k j i
          (and3_false_mid (intB_loB_conflict hj)),
        velcWriteFront_frame geo bc field blk fm _ b k j i
          (and3_false_mid (intB_hiB_conflict hj)),
        velcWriteLeft_frame geo bc field blk fm _ b k j i
          (and3_false_right (hiB_loB_conflict hX hi)),
        velcWriteRight_skip geo bc field blk fm d hcond]
    · rw [if_neg hdim,
        velcWriteBack_frame geo bc field blk fm _ b k j i
          (and3_false_mid (intB_loB_conflict hj)),
        velcWriteFront_frame geo bc field blk fm _ b k j i
          (and3_false_mid (intB_hiB_conflict hj)),
        velcWriteLeft_frame geo bc field blk fm _ b k j i
          (and3_false_right (hiB_loB_conflict hX hi)),
        velcWriteRight_skip geo bc field blk fm d hcond]
  · subst c3
    simp only [Option.some.injEq, Prod.mk.injEq] at hF
    obtain ⟨rfl, rfl, rfl⟩ := hF
    simp only [Rng.mem, Bool.and_eq_true] at hmem
    obtain ⟨⟨hk, hj⟩, hi⟩ := hmem
    by_cases hdim : geo.dim = 3
    · rw [if_pos hdim,
        velcWriteDown_frame geo bc field blk fm _ b k j i
          (and3_false_left (intB_loB_conflict hk)),
        velcWriteUp_frame geo bc field blk fm _ b k j i
          (and3_false_left (intB_hiB_conflict hk)),
        velcWriteBack_frame geo bc field blk fm _ b k j i
          (and3_false_mid (hiB_loB_conflict hY hj)),
        velcWriteFront_skip geo bc field blk fm _ hcond,
        velcWriteLeft_frame geo bc field blk fm _ b k j i
          (and3_false_right (intB_loB_conflict hi)),
        velcWriteRight_frame geo bc field blk fm d b k j i
          (and3_false_right (intB_hiB_conflict hi))]
    · rw [if_neg hdim,
        velcWriteBack_frame geo bc field blk fm _ b k j i
          (and3_false_mid (hiB_loB_conflict hY hj)),
        velcWriteFront_skip geo bc field blk fm _ hcond,
        velcWriteLeft_frame geo bc field blk fm _ b k j i
          (and3_false_right (intB_loB_conflict hi)),
        velcWriteRight_frame geo bc field blk fm d b k j i
          (and3_false_right (intB_hiB_conflict hi))]
  · subst c4
    simp only [Option.some.injEq, Prod.mk.injEq] at hF
    obtain ⟨rfl, rfl, rfl⟩ := hF
    simp only [Rng.mem, Bool.and_eq_true] at hmem
    obtain ⟨⟨hk, hj⟩, hi⟩ := hmem
    by_cases hdim : geo.dim = 3
    · rw [if_pos hdim,
        velcWriteDown_frame geo bc field blk fm _ b k j i
          (and3_false_left (intB_loB_conflict hk)),
        velcWriteUp_frame geo bc field blk fm _ b k j i
          (and3_false_left (intB_hiB_conflict hk)),
        velcWriteBack_skip geo bc field blk fm _ hcond,
        velcWriteFront_frame geo bc field blk fm _ b k j i
          (and3_false_mid (loB_hiB_conflict hY hj)),
        velcWriteLeft_frame geo bc field blk fm _ b k j i
          (and3_false_right (intB_loB_conflict hi)),
        velcWriteRight_frame geo bc field blk fm d b k j i
          (and3_false_right (intB_hiB_conflict hi))]
    · rw [if_neg hdim,
        velcWriteBack_skip geo bc field blk fm _ hcond,
        velcWriteFront_frame geo bc field blk fm _ b k j i
          (and3_false_mid (loB_hiB_conflict hY hj)),
        velcWriteLeft_frame geo bc field blk fm _ b k j i
          (and3_false_right (intB_loB_conflict hi)),
        velcWriteRight_frame geo bc field blk fm d b k j i
          (and3_false_right (intB_hiB_conflict hi))]
  · subst c5
    simp only [Option.some.injEq, Prod.mk.injEq] at hF
    obtain ⟨rfl, rfl, rfl⟩ := hF
    simp only [Rng.mem, Bool.and_eq_true] at hmem
    obtain ⟨⟨hk, hj⟩, hi⟩ := hmem
    by_cases hdim : geo.dim = 3
    · rw [if_pos hdim,
        velcWriteDown_frame geo bc field blk fm _ b k j i
          (and3_false_left (hiB_loB_conflict hZ hk)),
        velcWriteUp_skip geo bc field blk fm _ hcond,
        velcWriteBack_frame geo bc field blk fm _ b k j i
          (and3_false_mid (intB_loB_conflict hj)),
        velcWriteFront_frame geo bc field blk fm _ b k j i
          (and3_false_mid (intB_hiB_conflict hj)),
        velcWriteLeft_frame geo bc field blk fm _ b k j i
          (and3_false_right (intB_loB_conflict hi)),
        velcWriteRight_frame geo bc field blk fm d b k j i
          (and3_false_right (intB_hiB_conflict hi))]
    · rw [if_neg hdim,
        velcWriteBack_frame geo bc field blk fm _ b k j i
          (and3_false_mid (intB_loB_conflict hj)),
        velcWriteFront_frame geo bc field blk fm _ b k j i
          (and3_false_mid (intB_hiB_conflict hj)),
        velcWriteLeft_frame geo bc field blk fm _ b k j i
          (and3_false_right (intB_loB_conflict hi)),
        velcWriteRight_frame geo bc field blk fm d b k j i
          (and3_false_right (intB_hiB_conflict hi))]
  · subst c6
    simp only [Option.some.injEq, Prod.mk.injEq] at hF
    obtain ⟨rfl, rfl, rfl⟩ := hF
    simp only [Rng.mem, Bool.and_eq_true] at hmem
    obtain ⟨⟨hk, hj⟩, hi⟩ := hmem
    by_cases hdim : geo.dim = 3
    · rw [if_pos hdim,
        velcWriteDown_skip geo bc field blk fm _ hcond,
        velcWriteUp_frame geo bc field blk fm _ b k j i
          (and3_false_left (loB_hiB_conflict hZ hk)),
        velcWriteBack_frame geo bc field blk fm _ b k j i
          (and3_false_mid (intB_loB_conflict hj)),
        velcWriteFront_frame geo bc field blk fm _ b k j i
          (and3_false_mid (intB_hiB_conflict hj)),
        velcWriteLeft_frame geo bc field blk fm _ b k j i
          (and3_false_right (intB_loB_conflict hi)),
        velcWriteRight_frame geo bc field blk fm d b k j i
          (and3_false_right (intB_hiB_conflict hi))]
    · rw [if_neg hdim,
        velcWriteBack_frame geo bc field blk fm _ b k j i
          (and3_false_mid (intB_loB_conflict hj)),
        velcWriteFront_frame geo bc field blk fm _ b k j i
          (and3_false_mid (intB_hiB_conflict hj)),
        velcWriteLeft_frame geo bc field blk fm _ b k j i
          (and3_false_right (intB_loB_conflict hi)),
        velcWriteRight_frame geo bc field blk fm d b k j i
          (and3_false_right (intB_hiB_conflict hi))]

end Geometry

open Geometry in
/-- C8 (amended): an unrecognized field name makes `_bound_cells_from_data`
return with no error and no change at all; and for a face whose declared
velocity boundary-condition string is unrecognized, the velocity fill leaves
that face's guard box unchanged (the original claim that the whole array is
left unchanged whenever some face's string is unrecognized is refuted by
`C8_counterexample`: the other faces still fill their own boxes). -/
theorem C8_unrecognized_silently_ignored :
    (∀ (geo : Geom) (bcV bcT : String → String) (bvT : String → ℚ)
      (xmesh : Geometry.D) (struct : List FaceMap) (field : String)
      (d : Geometry.D),
      field ∉ recognizedFields →
      bound_cells_from_data geo bcV bcT bvT xmesh struct field d = Except.ok d)
    ∧ (∀ (geo : Geom) (bc : String → String) (field : String)
      (struct : List FaceMap) (d : Geometry.D) (F : String) (rz ry rx : Rng)
      (b : ℕ) (k j i : ℤ),
      faceRngs F = some (rz, ry, rx) →
      bc F ∉ recognizedVelcConds →
      2 * geo.g ≤ geo.X → 2 * geo.g ≤ geo.Y → 2 * geo.g ≤ geo.Z →
      (rz.mem geo.Z geo.g k && ry.mem geo.Y geo.g j
        && rx.mem geo.X geo.g i) = true →
      bound_cells_from_data_velc geo bc field struct d b k j i = d b k j i) := by
  constructor
  · intro geo bcV bcT bvT xmesh struct field d hfield
    unfold bound_cells_from_data
    split_ifs with h1 h2 h3 h4
    · exact absurd (mem_of_forall_mem h1 (by decide)) hfield
    · exact absurd
        (mem_of_forall_mem (show field ∈ ["temp"] by simp [h2]) (by decide))
        hfield
    · exact absurd (mem_of_forall_mem h3 (by decide)) hfield
    · exact absurd (mem_of_forall_mem h4 (by decide)) hfield
    · rfl
  · intro geo bc field struct d F rz ry rx b k j i hF hcond hX hY hZ hmem
    unfold bound_cells_from_data_velc
    refine foldl_agrees struct.enum _ d b k j i ?_
    intro d' p _
    exact velcBlock_unrecognized_frame geo bc field p.1 p.2 d' F rz ry rx
      b k j i hF hcond hX hY hZ hmem

open Geometry in
/-- C8 counterexample: with the right face set to `noslip_ins` and every
other face's string unrecognized, dispatching `"fcx2"` still zeroes the
right guard box — the array is not "entirely unchanged" merely because some
face's boundary-condition string is unrecognized. -/
theorem C8_counterexample :
    (fun f => if f = "right" then "noslip_ins" else "FOO") "left"
      ∉ recognizedVelcConds ∧
    bound_cells_from_data ⟨4, 4, 4, 1, 2⟩
      (fun f => if f = "right" then "noslip_ins" else "FOO") (fun _ => "FOO")
      (fun _ => 0) (fun _ _ _ _ => 0) [[]] "fcx2" (fun _ _ _ _ => 1)
      = Except.ok velcCEout ∧
    velcCEout 0 1 1 3 = 0 ∧ (fun _ _ _ _ => (1 : ℚ)) 0 1 1 3 = 1 ∧
    (0 : ℚ) ≠ 1 := by
  refine ⟨by decide, rfl, by decide, rfl, by norm_num⟩

open Geometry in
/-- Witness for `C8_unrecognized_silently_ignored` at a concrete input:
the unrecognized field name `"vort"` is dispatched to the final `else`
unchanged, and an unrecognized left-face string leaves a left-guard cell
of the velocity fill unchanged. -/
theorem C8_unrecognized_silently_ignored_witness :
    ("vort" ∉ recognizedFields ∧
      bound_cells_from_data ⟨4, 4, 4, 1, 2⟩ (fun _ => "FOO") (fun _ => "FOO")
        (fun _ => 0) (fun _ _ _ _ => 0) [[]] "vort" (fun _ _ _ _ => 2)
        = Except.ok (fun _ _ _ _ => 2))
    ∧ (faceRngs "left" = some (Rng.int, Rng.int, Rng.lo) ∧
      "FOO" ∉ recognizedVelcConds ∧
      (Rng.mem 4 1 Rng.int 1 && Rng.mem 4 1 Rng.int 1
        && Rng.mem 4 1 Rng.lo 0) = true ∧
      bound_cells_from_data_velc ⟨4, 4, 4, 1, 2⟩ (fun _ => "FOO") "fcx2" [[]]
        (fun _ _ _ _ => 2) 0 1 1 0 = (fun _ _ _ _ => (2 : ℚ)) 0 1 1 0) := by
  constructor
  · exact ⟨by decide,
      C8_unrecognized_silently_ignored.1 ⟨4, 4, 4, 1, 2⟩ (fun _ => "FOO")
        (fun _ => "FOO") (fun _ => 0) (fun _ _ _ _ => 0) [[]] "vort"
        (fun _ _ _ _ => 2) (by decide)⟩
  · refine ⟨by decide, by decide, by decide, ?_⟩
    exact C8_unrecognized_silently_ignored.2 ⟨4, 4, 4, 1, 2⟩ (fun _ => "FOO")
      "fcx2" [[]] (fun _ _ _ _ => 2) "left" Rng.int Rng.int Rng.lo 0 1 1 0
      (by decide) (by decide) (by decide) (by decide) (by decide) (by decide)

namespace Geometry

/-- A guard copy leaves a cell outside its destination box (or outside its
block) unchanged. -/
theorem copy_frame (geo : Geom) (blk src : ℕ) (rz ry rx : Rng) (d : D)
    (b : ℕ) (k j i : ℤ)
    (h : ¬ (b = blk ∧ (Rng.mem geo.Z geo.g rz k && Rng.mem geo.Y geo.g ry j
      && Rng.mem geo.X geo.g rx i) = true)) :
    copy geo blk src rz ry rx d b k j i = d b k j i := by
  unfold copy
  exact if_neg h

/-- An interior index is outside any non-interior range class. -/
theorem rng_mem_int_conflict {s g x : ℤ} (r : Rng) (hr : r ≠ Rng.int)
    (hint : intB s g x = true) : Rng.mem s g r x = false := by
  cases r
  · exact absurd rfl hr
  · exact intB_loB_conflict hint
  · exact intB_hiB_conflict hint

/-- With at least `2g` cells on the axis, distinct range classes are
disjoint. -/
theorem rng_mem_disjoint {s g x : ℤ} {r' r : Rng} (h2 : 2 * g ≤ s)
    (hne : r' ≠ r) (hx : Rng.mem s g r x = true) : Rng.mem s g r' x = false := by
  cases r' <;> cases r <;>
    simp only [Rng.mem] at hx ⊢ <;>
    first
      | exact absurd rfl hne
      | exact loB_intB_conflict hx
      | exact hiB_intB_conflict hx
      | exact intB_loB_conflict hx
      | exact hiB_loB_conflict h2 hx
      | exact intB_hiB_conflict hx
      | exact loB_hiB_conflict h2 hx

/-- No destination box whose ranges are not all interior contains an
all-interior cell. -/
theorem box_interior_false {geo : Geom} {rz ry rx : Rng} {k j i : ℤ}
    (hne : ¬ (rz = Rng.int ∧ ry = Rng.int ∧ rx = Rng.int))
    (hk : intB geo.Z geo.g k = true) (hj : intB geo.Y geo.g j = true)
    (hi : intB geo.X geo.g i = true) :
    (Rng.mem geo.Z geo.g rz k && Rng.mem geo.Y geo.g ry j
      && Rng.mem geo.X geo.g rx i) = false := by
  by_cases h1 : rz = Rng.int
  · by_cases h2 : ry = Rng.int
    · have h3 : rx ≠ Rng.int := fun h => hne ⟨h1, h2, h⟩
      exact and3_false_right (rng_mem_int_conflict rx h3 hi)
    · exact and3_false_mid (rng_mem_int_conflict ry h2 hj)
  · exact and3_false_left (rng_mem_int_conflict rz h1 hk)

/-- Destination boxes of distinct range triples are disjoint when every
axis holds at least `2g` cells. -/
theorem box_disjoint {geo : Geom} {rz ry rx rz' ry' rx' : Rng} {k j i : ℤ}
    (hne : (rz', ry', rx') ≠ (rz, ry, rx))
    (hX : 2 * geo.g ≤ geo.X) (hY : 2 * geo.g ≤ geo.Y) (hZ : 2 * geo.g ≤ geo.Z)
    (hmem : (Rng.mem geo.Z geo.g rz k && Rng.mem geo.Y geo.g ry j
      && Rng.mem geo.X geo.g rx i) = true) :
    (Rng.mem geo.Z geo.g rz' k && Rng.mem geo.Y geo.g ry' j
      && Rng.mem geo.X geo.g rx' i) = false := by
  rw [Bool.and_eq_true, Bool.and_eq_true] at hmem
  obtain ⟨⟨hk, hj⟩, hi⟩ := hmem
  by_cases h1 : rz' = rz
  · by_cases h2 : ry' = ry
    · have h3 : rx' ≠ rx := by
        intro h
        exact hne (by rw [h1, h2, h])
      exact and3_false_right (rng_mem_disjoint hX h3 hi)
    · exact and3_false_mid (rng_mem_disjoint hY h2 hj)
  · exact and3_false_left (rng_mem_disjoint hZ h1 hk)

/-- With `0 ≤ g` and at least `3g` cells on the axis, the source index of a
guard copy is interior. -/
theorem rng_shift_interior {s g x : ℤ} (r : Rng) (h3 : 3 * g ≤ s) (hg : 0 ≤ g)
    (hx : Rng.mem s g r x = true) : intB s g (x + Rng.shift s g r) = true := by
  cases r <;>
    simp only [Rng.mem, Rng.shift, intB, loB, hiB, Bool.and_eq_true,
      decide_eq_true_eq] at hx ⊢ <;>
    omega

/-- No statement of `_guard_cells_from_data` writes an all-interior box. -/
theorem guardTemplates_not_int :
    ∀ t ∈ guardTemplates,
      ¬ (t.rz = Rng.int ∧ t.ry = Rng.int ∧ t.rx = Rng.int) := by
  decide

/-- Every source reference of `_guard_cells_from_data` names known faces. -/
theorem guardTemplates_src_names :
    ∀ t ∈ guardTemplates,
      (match t.src with
       | SrcRef.face f => decide (f ∈ names)
       | SrcRef.edge f1 f2 => decide (f1 ∈ names) && decide (f2 ∈ names))
        = true := by
  decide

/-- Indices produced by `enumFrom` lie in the enumerated range. -/
theorem mem_enumFrom_bounds {α : Type} : ∀ (l : List α) (n : ℕ) (p : ℕ × α),
    p ∈ l.enumFrom n → n ≤ p.1 ∧ p.1 < n + l.length := by
  intro l
  induction l with
  | nil => intro n p hp; cases hp
  | cons a t ih =>
      intro n p hp
      rw [List.enumFrom_cons] at hp
      rcases List.mem_cons.mp hp with h | h
      · subst h
        refine ⟨Nat.le_refl n, ?_⟩
        show n < n + (t.length + 1)
        omega
      · have := ih (n + 1) p h
        simp only [List.length_cons]
        omega

/-- The payload of an `enumFrom` entry is a member of the list. -/
theorem mem_enumFrom_snd {α : Type} : ∀ (l : List α) (n : ℕ) (p : ℕ × α),
    p ∈ l.enumFrom n → p.2 ∈ l := by
  intro l
  induction l with
  | nil => intro n p hp; cases hp
  | cons a t ih =>
      intro n p hp
      rw [List.enumFrom_cons] at hp
      rcases List.mem_cons.mp hp with h | h
      · subst h
        exact List.mem_cons_self a t
      · exact List.mem_cons_of_mem a (ih (n + 1) p h)

/-- One statement of `_guard_cells_from_data` leaves a cell outside its
destination box (or outside its block) unchanged. -/
theorem applyTemplate_frame (geo : Geom) (struct : List FaceMap) (blk : ℕ)
    (fm : FaceMap) (d d2 : D) (t : Template)
    (hrun : applyTemplate geo struct blk fm d t = .ok d2) (b : ℕ) (k j i : ℤ)
    (h : ¬ (b = blk ∧ (Rng.mem geo.Z geo.g t.rz k && Rng.mem geo.Y geo.g t.ry j
      && Rng.mem geo.X geo.g t.rx i) = true)) :
    d2 b k j i = d b k j i := by
  unfold applyTemplate at hrun
  by_cases hf : fires geo fm t = true
  · rw [if_pos hf] at hrun
    cases hres : resolveSrc struct fm t.src with
    | error e =>
        rw [hres, SortedDict.except_bind_error] at hrun
        exact Except.noConfusion hrun
    | ok src =>
        rw [hres, SortedDict.except_bind_ok, SortedDict.except_pure_eq_ok] at hrun
        cases hrun
        exact copy_frame geo blk src t.rz t.ry t.rx d b k j i h
  · rw [if_neg hf, SortedDict.except_pure_eq_ok] at hrun
    cases hrun
    rfl

/-- One loop body of `_guard_cells_from_data` leaves every all-interior cell
of every block unchanged. -/
theorem fillBlockGuards_interior (geo : Geom) (struct : List FaceMap)
    (blk : ℕ) (fm : FaceMap) (d d2 : D)
    (hrun : fillBlockGuards geo struct blk fm d = .ok d2) (b : ℕ) (k j i : ℤ)
    (hk : intB geo.Z geo.g k = true) (hj : intB geo.Y geo.g j = true)
    (hi : intB geo.X geo.g i = true) :
    d2 b k j i = d b k j i := by
  refine foldlM_agrees guardTemplates _ b k j i ?_ d d2 hrun
  intro d' d2' t ht hstep
  refine applyTemplate_frame geo struct blk fm d' d2' t hstep b k j i ?_
  intro hcon
  obtain ⟨_, hbox⟩ := hcon
  rw [box_interior_false (guardTemplates_not_int t ht) hk hj hi] at hbox
  exact Bool.false_ne_true hbox

/-- One loop body of `_guard_cells_from_data` writes only its own block. -/
theorem fillBlockGuards_other (geo : Geom) (struct : List FaceMap)
    (blk : ℕ) (fm : FaceMap) (d d2 : D)
    (hrun : fillBlockGuards geo struct blk fm d = .ok d2) (b : ℕ) (k j i : ℤ)
    (hne : b ≠ blk) : d2 b k j i = d b k j i := by
  refine foldlM_agrees guardTemplates _ b k j i ?_ d d2 hrun
  intro d' d2' t ht hstep
  exact applyTemplate_frame geo struct blk fm d' d2' t hstep b k j i
    (fun hcon => hne hcon.1)

/-- A full run of `_guard_cells_from_data` leaves every all-interior cell
unchanged. -/
theorem guard_run_interior (geo : Geom) (struct : List FaceMap) (d out : D)
    (hrun : guard_cells_from_data geo struct d = .ok out) (b : ℕ) (k j i : ℤ)
    (hk : intB geo.Z geo.g k = true) (hj : intB geo.Y geo.g j = true)
    (hi : intB geo.X geo.g i = true) :
    out b k j i = d b k j i := by
  refine foldlM_agrees struct.enum _ b k j i ?_ d out hrun
  intro d' d2' p _ hstep
  exact fillBlockGuards_interior geo struct p.1 p.2 d' d2' hstep b k j i hk hj hi

/-- A monadic fold all of whose steps succeed succeeds. -/
theorem foldlM_total {α : Type} : ∀ (l : List α) (f : D → α → Except Unit D)
    (d : D), (∀ d a, a ∈ l → ∃ d2, f d a = .ok d2) →
    ∃ out, l.foldlM f d = .ok out := by
  intro l
  induction l with
  | nil => intro f d _; exact ⟨d, rfl⟩
  | cons a t ih =>
      intro f d h
      obtain ⟨d1, hd1⟩ := h d a (List.mem_cons_self a t)
      obtain ⟨out, hout⟩ := ih f d1
        (fun d' a' ha' => h d' a' (List.mem_cons_of_mem a ha'))
      refine ⟨out, ?_⟩
      rw [List.foldlM_cons, hd1, SortedDict.except_bind_ok]
      exact hout

/-- On a boundary-free layout, every source reference resolves. -/
theorem resolveSrc_total (struct : List FaceMap) (fm : FaceMap)
    (hfa : fullAdj struct) (hfm : fm ∈ struct) (sr : SrcRef)
    (hsr : (match sr with
      | SrcRef.face f => decide (f ∈ names)
      | SrcRef.edge f1 f2 => decide (f1 ∈ names) && decide (f2 ∈ names))
      = true) :
    ∃ srcb, resolveSrc struct fm sr = .ok srcb := by
  cases sr with
  | face f =>
      obtain ⟨n, hn, hn0, _⟩ := hfa fm hfm f (of_decide_eq_true hsr)
      refine ⟨n.toNat, ?_⟩
      simp only [resolveSrc]
      rw [hn]
      exact if_pos hn0
  | edge f1 f2 =>
      rw [Bool.and_eq_true, decide_eq_true_eq, decide_eq_true_eq] at hsr
      obtain ⟨h1, h2⟩ := hsr
      obtain ⟨n, hn, hn0, hnlt⟩ := hfa fm hfm f1 h1
      have hget : struct.get? n.toNat = some (struct.get ⟨n.toNat, hnlt⟩) :=
        List.get?_eq_get hnlt
      obtain ⟨m, hm, hm0, _⟩ :=
        hfa (struct.get ⟨n.toNat, hnlt⟩) (List.get_mem struct n.toNat hnlt) f2 h2
      refine ⟨m.toNat, ?_⟩
      simp only [resolveSrc]
      rw [hn]
      dsimp only
      rw [if_pos hn0, hget]
      dsimp only
      rw [hm]
      dsimp only
      exact if_pos hm0

/-- On a boundary-free layout, every statement of `_guard_cells_from_data`
succeeds. -/
theorem applyTemplate_total (geo : Geom) (struct : List FaceMap) (blk : ℕ)
    (fm : FaceMap) (hfa : fullAdj struct) (hfm : fm ∈ struct) (t : Template)
    (ht : t ∈ guardTemplates) (d : D) :
    ∃ d2, applyTemplate geo struct blk fm d t = .ok d2 := by
  unfold applyTemplate
  by_cases hf : fires geo fm t = true
  · rw [if_pos hf]
    obtain ⟨src, hsrc⟩ := resolveSrc_total struct fm hfa hfm t.src
      (guardTemplates_src_names t ht)
    refine ⟨copy geo blk src t.rz t.ry t.rx d, ?_⟩
    rw [hsrc, SortedDict.except_bind_ok]
    rfl
  · rw [if_neg hf]
    exact ⟨d, rfl⟩

/-- During its own loop iteration, a block with face `F` in its dictionary
gets its `F` guard box filled from the named neighbor: the face statement
fires and resolves, earlier statements cannot write the source (it is
interior), and later statements cannot write the destination (their boxes
are disjoint). -/
theorem fillBlockGuards_face_value (geo : Geom) (struct : List FaceMap)
    (blk : ℕ) (fm : FaceMap) (d d2 : D) (F : String) (n : ℤ) (rz ry rx : Rng)
    (k j i : ℤ) (pre post : List Template) (tF : Template)
    (hsplit : guardTemplates = pre ++ tF :: post)
    (htneeds : tF.needs = [F]) (htdim : tF.dim3 = false)
    (htsrc : tF.src = SrcRef.face F)
    (htrz : tF.rz = rz) (htry : tF.ry = ry) (htrx : tF.rx = rx)
    (hpost : ∀ t ∈ post, (t.rz, t.ry, t.rx) ≠ (rz, ry, rx))
    (hrun : fillBlockGuards geo struct blk fm d = .ok d2)
    (hn : lookupFace fm F = some n) (hn0 : 0 ≤ n)
    (hg : 0 ≤ geo.g) (h3X : 3 * geo.g ≤ geo.X) (h3Y : 3 * geo.g ≤ geo.Y)
    (h3Z : 3 * geo.g ≤ geo.Z)
    (hmem : (Rng.mem geo.Z geo.g rz k && Rng.mem geo.Y geo.g ry j
      && Rng.mem geo.X geo.g rx i) = true) :
    d2 blk k j i = d n.toNat (k + Rng.shift geo.Z geo.g rz)
      (j + Rng.shift geo.Y geo.g ry) (i + Rng.shift geo.X geo.g rx) := by
  have h2X : 2 * geo.g ≤ geo.X := by omega
  have h2Y : 2 * geo.g ≤ geo.Y := by omega
  have h2Z : 2 * geo.g ≤ geo.Z := by omega
  have hmem' := hmem
  rw [Bool.and_eq_true, Bool.and_eq_true] at hmem'
  obtain ⟨⟨hmk, hmj⟩, hmi⟩ := hmem'
  have hik := rng_shift_interior rz h3Z hg hmk
  have hij := rng_shift_interior ry h3Y hg hmj
  have hii := rng_shift_interior rx h3X hg hmi
  unfold fillBlockGuards at hrun
  rw [hsplit, List.foldlM_append] at hrun
  cases hpre : pre.foldlM (applyTemplate geo struct blk fm) d with
  | error e =>
      rw [hpre, SortedDict.except_bind_error] at hrun
      exact Except.noConfusion hrun
  | ok dpre =>
      rw [hpre, SortedDict.except_bind_ok, List.foldlM_cons] at hrun
      have hfire : fires geo fm tF = true := by
        unfold fires
        rw [htdim, htneeds]
        simp [hn]
      have hres : resolveSrc struct fm tF.src = .ok n.toNat := by
        rw [htsrc]
        simp only [resolveSrc]
        rw [hn]
        exact if_pos hn0
      have happ : applyTemplate geo struct blk fm dpre tF
          = .ok (copy geo blk n.toNat rz ry rx dpre) := by
        unfold applyTemplate
        rw [if_pos hfire, hres, SortedDict.except_bind_ok,
          htrz, htry, htrx]
        rfl
      rw [happ, SortedDict.except_bind_ok] at hrun
      have hframe : d2 blk k j i = copy geo blk n.toNat rz ry rx dpre blk k j i := by
        refine foldlM_agrees post _ blk k j i ?_ _ d2 hrun
        intro d' d2' t ht hstep
        refine applyTemplate_frame geo struct blk fm d' d2' t hstep blk k j i ?_
        intro hcon
        obtain ⟨_, hbox⟩ := hcon
        rw [box_disjoint (hpost t ht) h2X h2Y h2Z hmem] at hbox
        exact Bool.false_ne_true hbox
      rw [hframe]
      have hcv : copy geo blk n.toNat rz ry rx dpre blk k j i
          = dpre n.toNat (k + Rng.shift geo.Z geo.g rz)
            (j + Rng.shift geo.Y geo.g ry) (i + Rng.shift geo.X geo.g rx) := by
        unfold copy
        exact if_pos ⟨rfl, hmem⟩
      rw [hcv]
      refine foldlM_agrees pre _ n.toNat _ _ _ ?_ d dpre hpre
      intro d' d2' t ht hstep
      refine applyTemplate_frame geo struct blk fm d' d2' t hstep n.toNat _ _ _ ?_
      intro hcon
      obtain ⟨_, hbox⟩ := hcon
      have htg : t ∈ guardTemplates := by
        rw [hsplit]
        exact List.mem_append_left _ ht
      rw [box_interior_false (guardTemplates_not_int t htg) hik hij hii] at hbox
      exact Bool.false_ne_true hbox

end Geometry

open Geometry in
/-- C5: on a block layout with no physical boundaries the neighbor-copy
guard fill completes without error, and (for any completed run, with `g ≥ 0`
and at least `3g` cells per axis) every block's guard slab on a face present
in its adjacency entry equals the interior edge slab of the neighbor on that
face it was copied from. -/
theorem C5_guard_fill_neighbor_copy :
    (∀ (geo : Geom) (struct : List FaceMap) (d : Geometry.D),
      fullAdj struct →
      ∃ out, guard_cells_from_data geo struct d = Except.ok out)
    ∧ (∀ (geo : Geom) (struct : List FaceMap) (d out : Geometry.D),
      guard_cells_from_data geo struct d = Except.ok out →
      0 ≤ geo.g → 3 * geo.g ≤ geo.X → 3 * geo.g ≤ geo.Y → 3 * geo.g ≤ geo.Z →
      ∀ (b : ℕ) (fm : FaceMap), struct.get? b = some fm →
      ∀ (F : String) (n : ℤ), lookupFace fm F = some n → 0 ≤ n →
      ∀ (rz ry rx : Rng), faceRngs F = some (rz, ry, rx) →
      ∀ (k j i : ℤ),
      (Rng.mem geo.Z geo.g rz k && Rng.mem geo.Y geo.g ry j
        && Rng.mem geo.X geo.g rx i) = true →
      out b k j i = out n.toNat (k + Rng.shift geo.Z geo.g rz)
        (j + Rng.shift geo.Y geo.g ry) (i + Rng.shift geo.X geo.g rx)) := by
  constructor
  · intro geo struct d hfa
    unfold guard_cells_from_data
    apply foldlM_total
    intro d' p hp
    unfold fillBlockGuards
    apply foldlM_total
    intro d'' t ht
    exact applyTemplate_total geo struct p.1 p.2 hfa
      (mem_enumFrom_snd struct 0 p hp) t ht d''
  · intro geo struct d out hrun hg h3X h3Y h3Z b fm hb F n hn hn0 rz ry rx hF
      k j i hmem
    have hrun0 := hrun
    have hmem' := hmem
    rw [Bool.and_eq_true, Bool.and_eq_true] at hmem'
    obtain ⟨⟨hmk, hmj⟩, hmi⟩ := hmem'
    have hik := rng_shift_interior rz h3Z hg hmk
    have hij := rng_shift_interior ry h3Y hg hmj
    have hii := rng_shift_interior rx h3X hg hmi
    obtain ⟨hlt, hget⟩ := List.get?_eq_some.mp hb
    have hlen : (struct.take b).length = b := by
      rw [List.length_take]
      exact Nat.min_eq_left (Nat.le_of_lt hlt)
    have hsplit : struct = struct.take b ++ fm :: struct.drop (b + 1) := by
      conv_lhs => rw [← List.take_append_drop b struct]
      rw [List.drop_eq_get_cons hlt, hget]
    have henum : struct.enum = (struct.take b).enum
        ++ (b, fm) :: List.enumFrom (b + 1) (struct.drop (b + 1)) := by
      conv_lhs => rw [hsplit]
      rw [List.enum_append, hlen, List.enumFrom_cons]
    unfold guard_cells_from_data at hrun
    rw [henum, List.foldlM_append] at hrun
    cases hpreB : (struct.take b).enum.foldlM
        (fun d p => fillBlockGuards geo struct p.1 p.2 d) d with
    | error e =>
        rw [hpreB, SortedDict.except_bind_error] at hrun
        exact Except.noConfusion hrun
    | ok dA =>
        rw [hpreB, SortedDict.except_bind_ok, List.foldlM_cons] at hrun
        cases hmid : fillBlockGuards geo struct b fm dA with
        | error e =>
            rw [hmid, SortedDict.except_bind_error] at hrun
            exact Except.noConfusion hrun
        | ok dB =>
            rw [hmid, SortedDict.except_bind_ok] at hrun
            have h4 : out b k j i = dB b k j i := by
              refine foldlM_agrees _ _ b k j i ?_ dB out hrun
              intro d' d2' p hp hstep
              refine fillBlockGuards_other geo struct p.1 p.2 d' d2' hstep
                b k j i ?_
              intro hbp
              have hbd := (mem_enumFrom_bounds _ _ p hp).1
              omega
            have h3 : dA n.toNat (k + Rng.shift geo.Z geo.g rz)
                (j + Rng.shift geo.Y geo.g ry) (i + Rng.shift geo.X geo.g rx)
                = d n.toNat (k + Rng.shift geo.Z geo.g rz)
                  (j + Rng.shift geo.Y geo.g ry)
                  (i + Rng.shift geo.X geo.g rx) := by
              refine foldlM_agrees _ _ n.toNat _ _ _ ?_ d dA hpreB
              intro d' d2' p _ hstep
              exact fillBlockGuards_interior geo struct p.1 p.2 d' d2' hstep
                n.toNat _ _ _ hik hij hii
            have h5 : out n.toNat (k + Rng.shift geo.Z geo.g rz)
                (j + Rng.shift geo.Y geo.g ry) (i + Rng.shift geo.X geo.g rx)
                = d n.toNat (k + Rng.shift geo.Z geo.g rz)
                  (j + Rng.shift geo.Y geo.g ry)
                  (i + Rng.shift geo.X geo.g rx) :=
              guard_run_interior geo struct d out hrun0 n.toNat _ _ _ hik hij hii
            have h2 : dB b k j i = dA n.toNat (k + Rng.shift geo.Z geo.g rz)
                (j + Rng.shift geo.Y geo.g ry)
                (i + Rng.shift geo.X geo.g rx) := by
              unfold faceRngs at hF
              split_ifs at hF with c1 c2 c3 c4 c5 c6
              · subst c1
                simp only [Option.some.injEq, Prod.mk.injEq] at hF
                obtain ⟨rfl, rfl, rfl⟩ := hF
                exact fillBlockGuards_face_value geo struct b fm dA dB "left"
                  n Rng.int Rng.int Rng.lo k j i (guardTemplates.take 1)
                  (guardTemplates.drop 2)
                  ⟨["left"], false, SrcRef.face "left", Rng.int, Rng.int, Rng.lo⟩
                  rfl rfl rfl rfl rfl rfl rfl (by decide) hmid hn hn0 hg
                  h3X h3Y h3Z hmem
              · subst c2
                simp only [Option.some.injEq, Prod.mk.injEq] at hF
                obtain ⟨rfl, rfl, rfl⟩ := hF
                exact fillBlockGuards_face_value geo struct b fm dA dB "right"
                  n Rng.int Rng.int Rng.hi k j i (guardTemplates.take 0)
                  (guardTemplates.drop 1)
                  ⟨["right"], false, SrcRef.face "right", Rng.int, Rng.int, Rng.hi⟩
                  rfl rfl rfl rfl rfl rfl rfl (by decide) hmid hn hn0 hg
                  h3X h3Y h3Z hmem
              · subst c3
                simp only [Option.some.injEq, Prod.mk.injEq] at hF
                obtain ⟨rfl, rfl, rfl⟩ := hF
                exact fillBlockGuards_face_value geo struct b fm dA dB "front"
                  n Rng.int Rng.hi Rng.int k j i (guardTemplates.take 2)
                  (guardTemplates.drop 3)
                  ⟨["front"], false, SrcRef.face "front", Rng.int, Rng.hi, Rng.int⟩
                  rfl rfl rfl rfl rfl rfl rfl (by decide) hmid hn hn0 hg
                  h3X h3Y h3Z hmem
              · subst c4
                simp only [Option.some.injEq, Prod.mk.injEq] at hF
                obtain ⟨rfl, rfl, rfl⟩ := hF
                exact fillBlockGuards_face_value geo struct b fm dA dB "back"
                  n Rng.int Rng.lo Rng.int k j i (guardTemplates.take 3)
                  (guardTemplates.drop 4)
                  ⟨["back"], false, SrcRef.face "back", Rng.int, Rng.lo, Rng.int⟩
                  rfl rfl rfl rfl rfl rfl rfl (by decide) hmid hn hn0 hg
                  h3X h3Y h3Z hmem
              · subst c5
                simp only [Option.some.injEq, Prod.mk.injEq] at hF
                obtain ⟨rfl, rfl, rfl⟩ := hF
                exact fillBlockGuards_face_value geo struct b fm dA dB "up"
                  n Rng.hi Rng.int Rng.int k j i (guardTemplates.take 4)
                  (guardTemplates.drop 5)
                  ⟨["up"], false, SrcRef.face "up", Rng.hi, Rng.int, Rng.int⟩
                  rfl rfl rfl rfl rfl rfl rfl (by decide) hmid hn hn0 hg
                  h3X h3Y h3Z hmem
              · subst c6
                simp only [Option.some.injEq, Prod.mk.injEq] at hF
                obtain ⟨rfl, rfl, rfl⟩ := hF
                exact fillBlockGuards_face_value geo struct b fm dA dB "down"
                  n Rng.lo Rng.int Rng.int k j i (guardTemplates.take 5)
                  (guardTemplates.drop 6)
                  ⟨["down"], false, SrcRef.face "down", Rng.lo, Rng.int, Rng.int⟩
                  rfl rfl rfl rfl rfl rfl rfl (by decide) hmid hn hn0 hg
                  h3X h3Y h3Z hmem
            rw [h4, h2, h3, ← h5]

open Geometry in
/-- Witness for `C5_guard_fill_neighbor_copy`: the 2x2 torus layout is
boundary-free, its guard fill completes, and block 0's right guard cell
`(1,1,3)` equals block 1's interior cell `(1,1,1)` (value `1111`). -/
theorem C5_guard_fill_neighbor_copy_witness :
    fullAdj torusStruct ∧
    guard_cells_from_data ⟨4, 4, 4, 1, 3⟩ torusStruct torusData
      = Except.ok guardOutW ∧
    guardOutW 0 1 1 3 = guardOutW 1 (1 + Rng.shift 4 1 Rng.int)
      (1 + Rng.shift 4 1 Rng.int) (3 + Rng.shift 4 1 Rng.hi) ∧
    guardOutW 0 1 1 3 = 1111 := by
  have hfa : fullAdj torusStruct := by
    intro fm hfm f hf
    fin_cases hfm <;> fin_cases hf <;>
      exact ⟨_, rfl, by decide, by decide⟩
  have hrun : guard_cells_from_data ⟨4, 4, 4, 1, 3⟩ torusStruct torusData
      = Except.ok guardOutW := rfl
  refine ⟨hfa, hrun, ?_, by decide⟩
  exact C5_guard_fill_neighbor_copy.2 ⟨4, 4, 4, 1, 3⟩ torusStruct torusData
    guardOutW hrun (by decide) (by decide) (by decide) (by decide) 0
    [("left", 1), ("right", 1), ("front", 2), ("back", 2), ("up", 0), ("down", 0)]
    rfl "right" 1 rfl (by decide) Rng.int Rng.int Rng.hi (by decide) 1 1 3
    (by decide)

end PyIOFlash
